import Mathlib

/-!
Shallow embedding of the `rusty-matrix` digital-rain simulation
(`src/rain.rs`, `src/renderer.rs`, `src/gui.rs`).

Modelling conventions:
* Rust `f32` values are modelled as exact rationals (`ℚ`); the claims under
  study concern sign, ordering and range facts that are independent of the
  binary rounding of the constant literals involved.
* Rust machine integers are modelled as `ℕ`/`ℤ`; the `u32` frame counter,
  which the source manipulates with `wrapping_add`, is kept reduced modulo
  `2 ^ 32`, and its subtraction is wrapping (release-mode semantics).
* `rand::rngs::ThreadRng` is modelled as an explicit stream of rationals
  (`Rng`); `gen_range(lo..hi)` maps the next stream element into the range
  via its fractional part, and fails (`none`) exactly when the range is
  empty, which is the case in which the Rust call panics.
* Every operation that can panic in Rust (empty `gen_range` range,
  out-of-bounds slice/index) is modelled in the `Option` monad, `none`
  standing for a panic.  Logging (`eprintln!`) and the diagnostic miss
  counters of `generate_vertex_data` do not affect the produced data and
  are omitted.
-/

namespace RustyMatrix

/-- Explicit random source: a stream of rationals together with the current
position.  Models `rand::rngs::ThreadRng` for the deterministic contract. -/
structure Rng where
  seq : ℕ → ℚ
  pos : ℕ

instance : Inhabited Rng := ⟨⟨fun _ => 0, 0⟩⟩

/-- Draw the next raw value from the stream. -/
def Rng.next (g : Rng) : ℚ × Rng :=
  (g.seq g.pos, { g with pos := g.pos + 1 })

/-- Fractional part of a rational, written with the executable `Rat.floor`
so that concrete runs reduce inside the kernel; agrees with `Int.fract`. -/
def fract (q : ℚ) : ℚ :=
  q - (q.floor : ℚ)

/-- Model of `rng.gen_range(lo..hi)` on integers: the raw value's fractional
part (uniform in `[0,1)`) is scaled into the half-open range.  The Rust call
panics on an empty range, modelled by `none`. -/
def genRangeNat (lo hi : ℕ) (r : ℚ) : Option ℕ :=
  if lo < hi then some (lo + (fract r * ((hi : ℚ) - (lo : ℚ))).floor.toNat) else none

/-- Model of `rng.gen_range(lo..=hi)` on `i32` (inclusive range): the range
is empty — and the Rust call panics — exactly when `hi < lo`. -/
def genRangeIntIncl (lo hi : ℤ) (r : ℚ) : Option ℤ :=
  if lo ≤ hi then some (lo + (fract r * ((hi : ℚ) - (lo : ℚ) + 1)).floor) else none

/-- Model of `rng.gen_range(lo..hi)` on floats. -/
def genRangeRat (lo hi : ℚ) (r : ℚ) : Option ℚ :=
  if lo < hi then some (lo + fract r * (hi - lo)) else none

/-- Stateful integer draw. -/
def drawNat (lo hi : ℕ) (g : Rng) : Option (ℕ × Rng) :=
  let p := g.next
  (genRangeNat lo hi p.1).map (fun n => (n, p.2))

/-- Stateful inclusive `i32` draw. -/
def drawIntIncl (lo hi : ℤ) (g : Rng) : Option (ℤ × Rng) :=
  let p := g.next
  (genRangeIntIncl lo hi p.1).map (fun n => (n, p.2))

/-- Stateful float draw. -/
def drawRat (lo hi : ℚ) (g : Rng) : Option (ℚ × Rng) :=
  let p := g.next
  (genRangeRat lo hi p.1).map (fun q => (q, p.2))

/-- Model of `charset[rng.gen_range(0..charset.len())]`. -/
def drawChoice (cs : List Char) (g : Rng) : Option (Char × Rng) := do
  let (i, g') ← drawNat 0 cs.length g
  let c ← cs[i]?
  pure (c, g')

/-- Rust `as i32` cast of a nonnegative-or-negative float: truncation toward
zero (saturation is irrelevant at the magnitudes reached by the program). -/
def i32trunc (q : ℚ) : ℤ :=
  if 0 ≤ q then q.floor else -(-q).floor

/-- Rust `usize as i32` cast: keep the low 32 bits and reinterpret them as a
two's-complement signed value. -/
def usizeToI32 (n : ℕ) : ℤ :=
  if n % 2 ^ 32 < 2 ^ 31 then ((n % 2 ^ 32 : ℕ) : ℤ) else ((n % 2 ^ 32 : ℕ) : ℤ) - 2 ^ 32

/-- Wrapping `i32` arithmetic (release-mode semantics): normalise into
`[-2^31, 2^31)`. -/
def i32wrap (z : ℤ) : ℤ :=
  (z + 2 ^ 31) % 2 ^ 32 - 2 ^ 31

/-- Wrapping `u32` subtraction `a - b` (release-mode semantics), both
arguments kept below `2 ^ 32`. -/
def u32sub (a b : ℕ) : ℕ :=
  (a + 2 ^ 32 - b) % 2 ^ 32

/-- Guarded array write: models `chars[i] = c` on a Rust array, `none`
standing for the out-of-bounds panic. -/
def setChar (chars : List Char) (i : ℕ) (c : Char) : Option (List Char) :=
  if i < chars.length then some (chars.set i c) else none

/-- The `Raindrop` struct of `src/rain.rs` (the `[char; 80]` array becomes a
length-80 list). -/
structure Raindrop where
  x : ℕ
  y : ℤ
  length : ℕ
  speed : ℚ
  chars : List Char
  char_count : ℕ
  deriving Repr, DecidableEq, Inhabited

/-- The `RainSimulation` struct of `src/rain.rs`. -/
structure RainSimulation where
  raindrops : List Raindrop
  width : ℕ
  height : ℕ
  virtual_height : ℕ
  frame_count : ℕ
  rng : Rng
  charset : List Char
  last_animation_frame : ℕ
  last_midchain_frame : ℕ

instance : Inhabited RainSimulation :=
  ⟨⟨[], 0, 0, 0, 0, default, [], 0, 0⟩⟩

/-- `get_charset`: half-width katakana `U+FF66 ..= U+FF9D`, via
`filter_map(char::from_u32)`. -/
def get_charset : List Char :=
  (List.range (0xFF9D + 1 - 0xFF66)).filterMap (fun i =>
    if (0xFF66 + i).isValidChar then some (Char.ofNat (0xFF66 + i)) else none)

/-- The character-filling loop shared by `regenerate_chars` and
`create_raindrop`: `n` remaining iterations, writing `chars[cc]` and
incrementing `cc` each time. -/
def fillChars (charset : List Char) : ℕ → List Char → ℕ → Rng → Option (List Char × ℕ × Rng)
  | 0, chars, cc, g => some (chars, cc, g)
  | n + 1, chars, cc, g => do
    let (c, g) ← drawChoice charset g
    let chars ← setChar chars cc c
    fillChars charset n chars (cc + 1) g

/-- `regenerate_chars` of `src/rain.rs`. -/
def regenerate_chars (d : Raindrop) (charset : List Char) (g : Rng) :
    Option (Raindrop × Rng) := do
  let (newLength, g) ← drawNat 42 70 g
  let (chars, cc, g) ← fillChars charset (min newLength 80) (List.replicate 80 ' ') 0 g
  pure ({ d with chars := chars, char_count := cc, length := newLength }, g)

/-- `RainSimulation::create_raindrop` (the raindrop built and pushed for
column `x`). -/
def create_raindrop (height : ℕ) (charset : List Char) (x : ℕ) (g : Rng) :
    Option (Raindrop × Rng) := do
  let (length, g) ← drawNat 42 70 g
  let (base_speed, g) ← drawRat 2 4 g
  let (boost, g) ← drawRat 0 1 g
  let speed := base_speed + boost
  let (chars, char_count, g) ← fillChars charset (min length 80) (List.replicate 80 ' ') 0 g
  let (offset, g) ← drawIntIncl 0 (i32wrap (usizeToI32 height * 3)) g
  pure ({ x := x, y := i32wrap (-(usizeToI32 height) + offset), length := length, speed := speed,
          chars := chars, char_count := char_count }, g)

/-- The columns visited by `(0..width).step_by(40)`. -/
def spawn_columns (width : ℕ) : List ℕ :=
  (List.range width).filter (fun x => x % 40 = 0)

/-- Spawning loop: one `create_raindrop` per column, pushed in order. -/
def spawn_raindrops_aux (height : ℕ) (charset : List Char) :
    List ℕ → List Raindrop → Rng → Option (List Raindrop × Rng)
  | [], acc, g => some (acc, g)
  | x :: xs, acc, g => do
    let (d, g) ← create_raindrop height charset x g
    spawn_raindrops_aux height charset xs (acc ++ [d]) g

/-- `RainSimulation::spawn_raindrops`. -/
def RainSimulation.spawn_raindrops (s : RainSimulation) : Option RainSimulation := do
  let (ds, g) ← spawn_raindrops_aux s.height s.charset (spawn_columns s.width) s.raindrops s.rng
  pure { s with raindrops := ds, rng := g }

/-- `RainSimulation::new(width, height)` with an explicit random source. -/
def RainSimulation.new (width height : ℕ) (g : Rng) : Option RainSimulation :=
  RainSimulation.spawn_raindrops
    { raindrops := [], width := width, height := height, virtual_height := height * 3,
      frame_count := 0, rng := g, charset := get_charset,
      last_animation_frame := 0, last_midchain_frame := 0 }

/-- Head-refresh loop of `animate_glyphs`: every raindrop with a nonempty
chain gets a fresh random head glyph written to `chars[0]`. -/
def animate_heads_aux (charset : List Char) :
    List Raindrop → Rng → Option (List Raindrop × Rng)
  | [], g => some ([], g)
  | d :: ds, g =>
    if d.char_count > 0 then do
      let (c, g) ← drawChoice charset g
      let chars ← setChar d.chars 0 c
      let (rest, g) ← animate_heads_aux charset ds g
      pure ({ d with chars := chars } :: rest, g)
    else do
      let (rest, g) ← animate_heads_aux charset ds g
      pure (d :: rest, g)

/-- `RainSimulation::animate_glyphs`: gated on an 8-frame interval since the
last head refresh. -/
def RainSimulation.animate_glyphs (s : RainSimulation) : Option RainSimulation :=
  if 8 ≤ u32sub s.frame_count s.last_animation_frame then do
    let (ds, g) ← animate_heads_aux s.charset s.raindrops s.rng
    pure { s with last_animation_frame := s.frame_count, raindrops := ds, rng := g }
  else some s

/-- Visible mid-chain positions of a raindrop: indices `1 ..< char_count`
whose row `y - 32·k` lies within the padded screen range (the same check the
vertex generator performs). -/
def visible_positions (height : ℕ) (d : Raindrop) : List ℕ :=
  (List.range d.char_count).filter (fun k =>
    decide (1 ≤ k) && decide (-50 ≤ (d.y : ℚ) - (k : ℚ) * 32) &&
      decide ((d.y : ℚ) - (k : ℚ) * 32 ≤ (height : ℚ) + 50))

/-- Body of `animate_midchain` after the timestamp write: pick one random
raindrop and rewrite one random visible mid-chain glyph, consuming draws in
the same order as the source. -/
def animate_midchain_body (s : RainSimulation) : Option RainSimulation :=
  if s.raindrops.isEmpty then some s
  else do
    let (idx, g) ← drawNat 0 s.raindrops.length s.rng
    let d ← s.raindrops[idx]?
    if d.char_count ≤ 1 then
      pure { s with rng := g }
    else
      let vis := visible_positions s.height d
      if vis.isEmpty then
        pure { s with rng := g }
      else do
        let (pos_idx, g) ← drawNat 0 vis.length g
        let char_pos ← vis[pos_idx]?
        let (c, g) ← drawChoice s.charset g
        let chars ← setChar d.chars char_pos c
        pure { s with raindrops := s.raindrops.set idx { d with chars := chars }, rng := g }

/-- `RainSimulation::animate_midchain`: gated on a 6-frame interval; the
timestamp is written before the early emptiness/length returns, as in the
source. -/
def RainSimulation.animate_midchain (s : RainSimulation) : Option RainSimulation :=
  if 6 ≤ u32sub s.frame_count s.last_midchain_frame then
    animate_midchain_body { s with last_midchain_frame := s.frame_count }
  else some s

/-- Per-frame movement: `raindrop.y += raindrop.speed as i32`. -/
def moveDrop (d : Raindrop) : Raindrop :=
  { d with y := d.y + i32trunc d.speed }

/-- The recycling condition of `update`: the tail `y - char_count·32` has
passed below twice the visible height. -/
def recycleCond (height : ℕ) (d : Raindrop) : Prop :=
  d.y - (d.char_count : ℤ) * 32 > (height : ℤ) * 2

instance (height : ℕ) (d : Raindrop) : Decidable (recycleCond height d) := by
  unfold recycleCond; infer_instance

/-- Recycling loop of `update`: a raindrop whose tail `y - char_count·32`
has passed below `2·height` is reset to the top, given a fresh random
column, and its chain regenerated; its `speed` field is not touched. -/
def recycle_aux (width height : ℕ) (charset : List Char) :
    List Raindrop → Rng → Option (List Raindrop × Rng)
  | [], g => some ([], g)
  | d :: ds, g =>
    if recycleCond height d then do
      let (newx, g) ← drawNat 0 width g
      let (d', g) ← regenerate_chars { d with y := -(height : ℤ), x := newx } charset g
      let (rest, g) ← recycle_aux width height charset ds g
      pure (d' :: rest, g)
    else do
      let (rest, g) ← recycle_aux width height charset ds g
      pure (d :: rest, g)

/-- `RainSimulation::update`: bump the (wrapping) frame counter, move every
raindrop by its truncated speed, run the two glyph animations, then recycle
raindrops whose tail has left the bottom of the virtual area. -/
def RainSimulation.update (s : RainSimulation) : Option RainSimulation := do
  let s := { s with frame_count := (s.frame_count + 1) % 2 ^ 32,
                    raindrops := s.raindrops.map moveDrop }
  let s ← s.animate_glyphs
  let s ← s.animate_midchain
  let (ds, g) ← recycle_aux s.width s.height s.charset s.raindrops s.rng
  pure { s with raindrops := ds, rng := g }

/-- `RainSimulation::resize`: discard all raindrops and respawn at the new
dimensions. -/
def RainSimulation.resize (s : RainSimulation) (width height : ℕ) :
    Option RainSimulation :=
  RainSimulation.spawn_raindrops
    { s with width := width, height := height, virtual_height := height * 3,
             raindrops := [], charset := get_charset }

/-- `GlyphMetrics` of `src/renderer.rs`. -/
structure GlyphMetrics where
  u_min : ℚ
  v_min : ℚ
  u_max : ℚ
  v_max : ℚ
  width : ℕ
  height : ℕ
  deriving Repr, DecidableEq, Inhabited

/-- `Vertex` of `src/renderer.rs`. -/
structure Vertex where
  position : ℚ × ℚ
  uv : ℚ × ℚ
  color : ℚ × ℚ × ℚ × ℚ
  deriving Repr, DecidableEq, Inhabited

/-- Color computation of `generate_vertex_data` for the row `char_idx` of a
raindrop: pure white for the head, clamped linear green fade for the tail. -/
def quadColor (d : Raindrop) (char_idx : ℕ) : ℚ × ℚ × ℚ × ℚ :=
  let distance_from_head : ℚ := (char_idx : ℚ)
  let max_distance : ℚ := (d.length : ℚ)
  let brightness := (1 - distance_from_head / max_distance) * (7 / 10) + 1 / 10
  let brightness := min (max brightness 0) 1
  if char_idx = 0 then (1, 1, 1, 1)
  else (brightness * (1 / 10), brightness * 1, brightness * (1 / 10), brightness)

/-- The four vertices (bottom-left, bottom-right, top-left, top-right) of the
quad emitted for row `char_idx` of a raindrop. -/
def quadVertices (width height : ℕ) (d : Raindrop) (char_idx : ℕ) (m : GlyphMetrics) :
    List Vertex :=
  let char_y : ℚ := (d.y : ℚ) - (char_idx : ℚ) * 32
  let color := quadColor d char_idx
  let x_ndc : ℚ := 2 * (d.x : ℚ) / (width : ℚ) - 1
  let y_ndc : ℚ := 1 - 2 * char_y / (height : ℚ)
  let gw : ℚ := 2 * (m.width : ℚ) / (width : ℚ)
  let gh : ℚ := 2 * (m.height : ℚ) / (height : ℚ)
  [ { position := (x_ndc, y_ndc - gh), uv := (m.u_min, m.v_max), color := color },
    { position := (x_ndc + gw, y_ndc - gh), uv := (m.u_max, m.v_max), color := color },
    { position := (x_ndc, y_ndc), uv := (m.u_min, m.v_min), color := color },
    { position := (x_ndc + gw, y_ndc), uv := (m.u_max, m.v_min), color := color } ]

/-- The six indices (two triangles) emitted for one quad whose first vertex
sits at `base`. -/
def quadIndices (base : ℕ) : List ℕ :=
  [base, base + 1, base + 2, base + 1, base + 3, base + 2]

/-- Body of the inner loop of `generate_vertex_data` for one enumerated
character `(char_idx, ch)`: skip on atlas miss, skip when off-screen
(padding 50), otherwise append one quad. -/
def emitRow (gm : Char → Option GlyphMetrics) (width height : ℕ) (d : Raindrop)
    (acc : List Vertex × List ℕ) (kc : ℕ × Char) : List Vertex × List ℕ :=
  match gm kc.2 with
  | none => acc
  | some m =>
    let char_y : ℚ := (d.y : ℚ) - (kc.1 : ℚ) * 32
    if char_y < -50 ∨ char_y > (height : ℚ) + 50 then acc
    else
      (acc.1 ++ quadVertices width height d kc.1 m, acc.2 ++ quadIndices acc.1.length)

/-- Per-raindrop part of `generate_vertex_data`: iterate over the slice
`chars[..char_count]` with indices (the slice panics when `char_count`
exceeds the array length). -/
def generateDrop (gm : Char → Option GlyphMetrics) (width height : ℕ) (d : Raindrop)
    (acc : List Vertex × List ℕ) : Option (List Vertex × List ℕ) :=
  if d.char_count ≤ d.chars.length then
    some (((d.chars.take d.char_count).enum).foldl (emitRow gm width height d) acc)
  else none

/-- Outer loop of `generate_vertex_data` over all raindrops. -/
def generate_vertex_data_aux (gm : Char → Option GlyphMetrics) (width height : ℕ) :
    List Raindrop → (List Vertex × List ℕ) → Option (List Vertex × List ℕ)
  | [], acc => some acc
  | d :: ds, acc => do
    let acc ← generateDrop gm width height d acc
    generate_vertex_data_aux gm width height ds acc

/-- `RainSimulation::generate_vertex_data` (the glyph `HashMap` becomes a
partial function `Char → Option GlyphMetrics`). -/
def RainSimulation.generate_vertex_data (s : RainSimulation)
    (gm : Char → Option GlyphMetrics) : Option (List Vertex × List ℕ) :=
  generate_vertex_data_aux gm s.width s.height s.raindrops ([], [])

/-- Simulation states reachable from `new` by any sequence of `update` and
`resize` calls. -/
inductive Reachable : RainSimulation → Prop
  | init (width height : ℕ) (g : Rng) (s : RainSimulation) :
      RainSimulation.new width height g = some s → Reachable s
  | step (s s' : RainSimulation) : Reachable s →
      RainSimulation.update s = some s' → Reachable s'
  | resize (s s' : RainSimulation) (width height : ℕ) : Reachable s →
      RainSimulation.resize s width height = some s' → Reachable s'

/-- Well-formedness of a single raindrop: the invariant maintained by
`create_raindrop` and `regenerate_chars`. -/
def WFdrop (d : Raindrop) : Prop :=
  0 < d.speed ∧ d.speed < 5 ∧ 42 ≤ d.length ∧ d.length < 70 ∧
    d.char_count = d.length ∧ d.chars.length = 80

instance (d : Raindrop) : Decidable (WFdrop d) := by
  unfold WFdrop; infer_instance

/-- Global simulation invariant. -/
def Inv (s : RainSimulation) : Prop :=
  s.charset = get_charset ∧ (s.width = 0 → s.raindrops = []) ∧
    ∀ d ∈ s.raindrops, WFdrop d

instance (s : RainSimulation) : Decidable (Inv s) := by
  unfold Inv; infer_instance

/-- Two raindrops related by a glyph animation step: only the character
content may differ, and even that keeps its length. -/
def Skel (d d' : Raindrop) : Prop :=
  d'.x = d.x ∧ d'.y = d.y ∧ d'.speed = d.speed ∧ d'.length = d.length ∧
    d'.char_count = d.char_count ∧ d'.chars.length = d.chars.length

/-- Positionwise relation between raindrop lists of equal length. -/
structure DropRel (R : Raindrop → Raindrop → Prop) (l l' : List Raindrop) : Prop where
  len : l'.length = l.length
  rel : ∀ (i : ℕ) (d d' : Raindrop), l[i]? = some d → l'[i]? = some d' → R d d'

/-- Per-raindrop effect of the recycling loop: a raindrop meeting the tail
condition is reset (head above the screen, fresh column below `width`,
regenerated chain, speed untouched); any other raindrop is left untouched. -/
def RecycleR (w h : ℕ) (d d' : Raindrop) : Prop :=
  (recycleCond h d → d'.y = -(h : ℤ) ∧ d'.x < w ∧ d'.speed = d.speed ∧
    42 ≤ d'.length ∧ d'.length < 70 ∧ d'.char_count = d'.length ∧ d'.chars.length = 80) ∧
  (¬ recycleCond h d → d' = d)

/-- Per-raindrop effect of one whole `update` call. -/
def UpdateR (w h : ℕ) (d d' : Raindrop) : Prop :=
  d'.speed = d.speed ∧
  (recycleCond h (moveDrop d) → d'.y = -(h : ℤ) ∧ d'.x < w ∧
    42 ≤ d'.length ∧ d'.length < 70 ∧ d'.char_count = d'.length) ∧
  (¬ recycleCond h (moveDrop d) → d'.y = d.y + i32trunc d.speed ∧ d'.x = d.x ∧
    d'.length = d.length ∧ d'.char_count = d.char_count ∧ d'.chars.length = d.chars.length)

/-! ### Quad counting for the vertex generator -/

/-- The emission predicate of the inner loop of `generate_vertex_data`: the
character has an atlas entry and its row lies within the padded screen
range. -/
def emitP (gm : Char → Option GlyphMetrics) (height : ℕ) (d : Raindrop)
    (kc : ℕ × Char) : Bool :=
  (gm kc.2).isSome && decide (-50 ≤ (d.y : ℚ) - (kc.1 : ℚ) * 32) &&
    decide ((d.y : ℚ) - (kc.1 : ℚ) * 32 ≤ (height : ℚ) + 50)

/-- Number of quads `generate_vertex_data` emits: one per (raindrop, row)
pair satisfying `emitP`. -/
def quadCount (gm : Char → Option GlyphMetrics) (height : ℕ)
    (drops : List Raindrop) : ℕ :=
  (drops.map (fun d => ((d.chars.take d.char_count).enum).countP (emitP gm height d))).sum

/-- Green channel of an RGBA color tuple. -/
def green (c : ℚ × ℚ × ℚ × ℚ) : ℚ := c.2.1

/-! ### The presenter's surface-acquisition error handling -/

/-- The `wgpu::SurfaceError` variants. -/
inductive SurfaceError
  | Timeout
  | Outdated
  | Lost
  | OutOfMemory
  deriving DecidableEq, Repr

/-- Model of `e.to_string().contains("underlying surface has changed")`.
Modelled from the `Display` strings of `wgpu::SurfaceError`: only
`Outdated`'s message ("The underlying surface has changed, and therefore the
swap chain must be updated") contains that fragment. -/
def errorMentionsSurfaceChanged : SurfaceError → Bool
  | .Outdated => true
  | _ => false

/-- The acquisition block of `Renderer::render_frame` (renderer.rs 508-528):
`Ok` passes through; `Lost` recreates the surface and retries once; any
other error whose message mentions a changed surface also recreates and
retries once; everything else propagates.  The boolean records whether
`recreate_surface` ran (and hence whether a single retry happened); the
second argument is the result of that single retry. -/
def get_current_texture_with_recovery (first retry : Except SurfaceError Unit) :
    Bool × Except SurfaceError Unit :=
  match first with
  | .ok t => (false, .ok t)
  | .error .Lost => (true, retry)
  | .error e =>
    if errorMentionsSurfaceChanged e then (true, retry) else (false, .error e)

/-- What the frame governor does with the result of `render_frame`
(gui.rs 119-132). -/
inductive LoopAction
  | proceed
  | resizeFramebuffers
  | exitLoop
  | logAndSkip
  deriving DecidableEq, Repr

/-- The `match renderer.render_frame(..)` arms of `App::handle_window_event`:
`Ok` continues, `Lost` reconfigures the framebuffers, `OutOfMemory` exits the
event loop, anything else is logged and the frame is skipped. -/
def handle_render_result : Except SurfaceError Unit → LoopAction
  | .ok _ => .proceed
  | .error .Lost => .resizeFramebuffers
  | .error .OutOfMemory => .exitLoop
  | .error _ => .logAndSkip

/-! ### Concrete inputs for witnesses and counterexamples -/

/-- The all-zero random stream. -/
def rngZero : Rng := ⟨fun _ => 0, 0⟩

/-- Stream whose third value (the speed boost draw of the first raindrop)
is 1/2, giving that raindrop the fractional speed 5/2. -/
def rngTrunc : Rng := ⟨fun n => if n = 2 then 1 / 2 else 0, 0⟩

/-- Stream that spawns the first raindrop at `y = 100` (value 45 is the
spawn-offset draw) and makes the glyph redraws at positions 48 and 49 pick a
character different from the initial chain. -/
def rngCadence : Rng :=
  ⟨fun n => if n = 45 then 200 / 301 else if n = 48 then 1 / 2 else if n = 49 then 1 / 2 else 0, 0⟩

/-- `new` followed by `n` `update` calls. -/
def runN (w h n : ℕ) (g : Rng) : Option RainSimulation :=
  Nat.iterate (fun o => o.bind RainSimulation.update) n (RainSimulation.new w h g)

/-- The state built by `new(40, 100)` on the all-zero stream: one raindrop
at column 0 with `y = -100`, speed 2, chain length 42. -/
def sInit : RainSimulation := (RainSimulation.new 40 100 rngZero).getD default

/-- First raindrop of `sInit`. -/
def dInit : Raindrop := sInit.raindrops.getD 0 default

/-- State after one `update` of `sInit`. -/
def sInitUpd : RainSimulation := (sInit.update).getD default

/-- First raindrop of `sInitUpd`. -/
def dInitUpd : Raindrop := sInitUpd.raindrops.getD 0 default

/-- A raindrop whose tail has left the bottom of a height-100 screen
(`1600 - 42·32 = 256 > 200` after the next move), with speed 5/2. -/
def dRecycleA : Raindrop :=
  { x := 0, y := 1600, length := 42, speed := 5 / 2,
    chars := List.replicate 80 'ｦ', char_count := 42 }

/-- Same raindrop but with speed 9/4 (same truncated movement). -/
def dRecycleB : Raindrop := { dRecycleA with speed := 9 / 4 }

/-- Simulation holding `dRecycleA`, about to recycle it. -/
def sRecycleA : RainSimulation :=
  { raindrops := [dRecycleA], width := 40, height := 100, virtual_height := 300,
    frame_count := 0, rng := rngZero, charset := get_charset,
    last_animation_frame := 0, last_midchain_frame := 0 }

/-- Same simulation with `dRecycleB` instead. -/
def sRecycleB : RainSimulation := { sRecycleA with raindrops := [dRecycleB] }

/-- State after one `update` of `sRecycleA`. -/
def sRecycleAUpd : RainSimulation := (sRecycleA.update).getD default

/-- Recycled first raindrop of `sRecycleAUpd`. -/
def dRecycleAUpd : Raindrop := sRecycleAUpd.raindrops.getD 0 default

/-- A state whose head-refresh timer is due (gap 8) while the mid-chain
timer is not (gap 3). -/
def sGate : RainSimulation :=
  { raindrops := [dRecycleA], width := 40, height := 100, virtual_height := 300,
    frame_count := 8, rng := rngZero, charset := get_charset,
    last_animation_frame := 0, last_midchain_frame := 5 }

/-- A full glyph map (every character present). -/
def gmFull : Char → Option GlyphMetrics := fun _ => some ⟨0, 0, 1, 1, 32, 32⟩

/-- The end-to-end example of the spec: a single streak with head at
`y = 50` and length 3 on a height-100 screen. -/
def dVis : Raindrop :=
  { x := 0, y := 50, length := 3, speed := 2, chars := ['ｦ', 'ｦ', 'ｦ'], char_count := 3 }

/-- Simulation holding `dVis`. -/
def sVis : RainSimulation :=
  { raindrops := [dVis], width := 100, height := 100, virtual_height := 300,
    frame_count := 0, rng := rngZero, charset := get_charset,
    last_animation_frame := 0, last_midchain_frame := 0 }

/-! ### Basic facts about the random-draw model -/

theorem ratFloor_eq_intFloor (q : ℚ) : q.floor = ⌊q⌋ := by
  rw [Rat.floor_def', Rat.floor_def]

theorem fract_eq_intFract (q : ℚ) : fract q = Int.fract q := by
  rw [fract, ratFloor_eq_intFloor, Int.fract]

theorem fract_nonneg' (q : ℚ) : 0 ≤ fract q := by
  rw [fract_eq_intFract]; exact Int.fract_nonneg q

theorem fract_lt_one' (q : ℚ) : fract q < 1 := by
  rw [fract_eq_intFract]; exact Int.fract_lt_one q

theorem genRangeNat_spec (lo hi : ℕ) (r : ℚ) (h : lo < hi) :
    ∃ n, genRangeNat lo hi r = some n ∧ lo ≤ n ∧ n < hi := by
  refine ⟨lo + (fract r * ((hi : ℚ) - (lo : ℚ))).floor.toNat, by simp [genRangeNat, h],
    Nat.le_add_right lo _, ?_⟩
  have hlt : (lo : ℚ) < (hi : ℚ) := by exact_mod_cast h
  have hx0 : (0 : ℚ) ≤ fract r * ((hi : ℚ) - (lo : ℚ)) :=
    mul_nonneg (fract_nonneg' r) (by linarith)
  have hx1 : fract r * ((hi : ℚ) - (lo : ℚ)) < (hi : ℚ) - (lo : ℚ) := by
    have := mul_lt_mul_of_pos_right (fract_lt_one' r) (show (0:ℚ) < (hi : ℚ) - (lo : ℚ) by linarith)
    simpa using this
  have hfl : (fract r * ((hi : ℚ) - (lo : ℚ))).floor < (hi : ℤ) - (lo : ℤ) := by
    rw [ratFloor_eq_intFloor, Int.floor_lt]
    push_cast
    exact hx1
  have hfl0 : 0 ≤ (fract r * ((hi : ℚ) - (lo : ℚ))).floor := by
    rw [ratFloor_eq_intFloor]
    exact Int.floor_nonneg.2 hx0
  omega

theorem genRangeIntIncl_isSome (lo hi : ℤ) (r : ℚ) (h : lo ≤ hi) :
    ∃ n, genRangeIntIncl lo hi r = some n :=
  ⟨lo + (fract r * ((hi : ℚ) - (lo : ℚ) + 1)).floor, by simp [genRangeIntIncl, h]⟩

theorem usizeToI32_of_lt {n : ℕ} (h : n < 2 ^ 31) : usizeToI32 n = (n : ℤ) := by
  have hmod : n % 2 ^ 32 = n := Nat.mod_eq_of_lt (by omega)
  rw [usizeToI32, hmod, if_pos h]

theorem i32wrap_of_fit {z : ℤ} (h1 : -2 ^ 31 ≤ z) (h2 : z < 2 ^ 31) : i32wrap z = z := by
  rw [i32wrap, Int.emod_eq_of_lt (by omega) (by omega)]
  omega

theorem genRangeRat_spec (lo hi : ℚ) (r : ℚ) (h : lo < hi) :
    ∃ q, genRangeRat lo hi r = some q ∧ lo ≤ q ∧ q < hi := by
  refine ⟨lo + fract r * (hi - lo), by simp [genRangeRat, h], ?_, ?_⟩
  · have := mul_nonneg (fract_nonneg' r) (show (0:ℚ) ≤ hi - lo by linarith)
    linarith
  · have := mul_lt_mul_of_pos_right (fract_lt_one' r) (show (0:ℚ) < hi - lo by linarith)
    nlinarith

theorem drawNat_spec (lo hi : ℕ) (g : Rng) (h : lo < hi) :
    ∃ n g', drawNat lo hi g = some (n, g') ∧ lo ≤ n ∧ n < hi := by
  obtain ⟨n, hn, h1, h2⟩ := genRangeNat_spec lo hi g.next.1 h
  exact ⟨n, g.next.2, by simp [drawNat, hn], h1, h2⟩

theorem drawIntIncl_isSome (lo hi : ℤ) (g : Rng) (h : lo ≤ hi) :
    ∃ n g', drawIntIncl lo hi g = some (n, g') := by
  obtain ⟨n, hn⟩ := genRangeIntIncl_isSome lo hi g.next.1 h
  exact ⟨n, g.next.2, by simp [drawIntIncl, hn]⟩

theorem drawRat_spec (lo hi : ℚ) (g : Rng) (h : lo < hi) :
    ∃ q g', drawRat lo hi g = some (q, g') ∧ lo ≤ q ∧ q < hi := by
  obtain ⟨q, hq, h1, h2⟩ := genRangeRat_spec lo hi g.next.1 h
  exact ⟨q, g.next.2, by simp [drawRat, hq], h1, h2⟩

theorem drawChoice_spec (cs : List Char) (g : Rng) (h : cs ≠ []) :
    ∃ c g', drawChoice cs g = some (c, g') := by
  have hlen : 0 < cs.length := List.length_pos.2 h
  obtain ⟨n, g', hn, -, h2⟩ := drawNat_spec 0 cs.length g hlen
  refine ⟨cs[n], g', ?_⟩
  rw [drawChoice, hn]
  simp [List.getElem?_eq_getElem h2]

theorem setChar_spec (chars : List Char) (i : ℕ) (c : Char) (h : i < chars.length) :
    setChar chars i c = some (chars.set i c) := by
  simp [setChar, h]

/-! ### Well-formedness of freshly created raindrops -/

theorem fillChars_spec (cs : List Char) (hcs : cs ≠ []) :
    ∀ (n : ℕ) (chars : List Char) (cc : ℕ) (g : Rng), cc + n ≤ chars.length →
      ∃ chars' g', fillChars cs n chars cc g = some (chars', cc + n, g') ∧
        chars'.length = chars.length := by
  intro n
  induction n with
  | zero => intro chars cc g _; exact ⟨chars, g, rfl, rfl⟩
  | succ n ih =>
    intro chars cc g hle
    obtain ⟨c, g', hdraw⟩ := drawChoice_spec cs g hcs
    have hcc : cc < chars.length := by omega
    obtain ⟨chars', g'', hfill, hlen⟩ := ih (chars.set cc c) (cc + 1) g'
      (by simp only [List.length_set]; omega)
    refine ⟨chars', g'', ?_, by rw [hlen, List.length_set]⟩
    have hrw : cc + (n + 1) = cc + 1 + n := by omega
    rw [fillChars, hdraw]
    simp only [Option.bind_eq_bind, Option.some_bind, setChar_spec chars cc c hcc]
    rw [hrw, hfill]

theorem regenerate_chars_spec (d : Raindrop) (cs : List Char) (g : Rng) (hcs : cs ≠ []) :
    ∃ d' g', regenerate_chars d cs g = some (d', g') ∧
      d'.x = d.x ∧ d'.y = d.y ∧ d'.speed = d.speed ∧
      42 ≤ d'.length ∧ d'.length < 70 ∧ d'.char_count = d'.length ∧ d'.chars.length = 80 := by
  obtain ⟨L, g1, hL, hL1, hL2⟩ := drawNat_spec 42 70 g (by norm_num)
  have hmin : min L 80 = L := Nat.min_eq_left (by omega)
  obtain ⟨chars', g2, hfill, hlen⟩ :=
    fillChars_spec cs hcs (min L 80) (List.replicate 80 ' ') 0 g1
      (by simp only [List.length_replicate]; omega)
  refine ⟨{ d with chars := chars', char_count := 0 + min L 80, length := L }, g2,
    ?_, rfl, rfl, rfl, hL1, hL2, by simp [hmin], by simpa using hlen⟩
  rw [regenerate_chars, hL]
  simp only [Option.bind_eq_bind, Option.some_bind]
  rw [hfill]
  rfl

theorem create_raindrop_spec (height : ℕ) (cs : List Char) (x : ℕ) (g : Rng) (hcs : cs ≠ [])
    (hh : 3 * height < 2 ^ 31) :
    ∃ d g', create_raindrop height cs x g = some (d, g') ∧ d.x = x ∧ WFdrop d := by
  obtain ⟨L, g1, hL, hL1, hL2⟩ := drawNat_spec 42 70 g (by norm_num)
  obtain ⟨b, g2, hb, hb1, hb2⟩ := drawRat_spec 2 4 g1 (by norm_num)
  obtain ⟨o, g3, ho, ho1, ho2⟩ := drawRat_spec 0 1 g2 (by norm_num)
  have hmin : min L 80 = L := Nat.min_eq_left (by omega)
  obtain ⟨chars', g4, hfill, hlen⟩ :=
    fillChars_spec cs hcs (min L 80) (List.replicate 80 ' ') 0 g3
      (by simp only [List.length_replicate]; omega)
  have hbound : i32wrap (usizeToI32 height * 3) = 3 * (height : ℤ) := by
    rw [usizeToI32_of_lt (by omega), i32wrap_of_fit (by omega) (by push_cast; omega)]
    ring
  obtain ⟨off, g5, hoff⟩ := drawIntIncl_isSome 0 (i32wrap (usizeToI32 height * 3)) g4
    (by rw [hbound]; positivity)
  refine ⟨{ x := x, y := i32wrap (-(usizeToI32 height) + off), length := L, speed := b + o,
            chars := chars', char_count := 0 + min L 80 }, g5,
    ?_, rfl, ?_, ?_, hL1, hL2, by simp [hmin], by simpa using hlen⟩
  · rw [create_raindrop, hL]
    simp only [Option.bind_eq_bind, Option.some_bind]
    rw [hb]
    simp only [Option.some_bind]
    rw [ho]
    simp only [Option.some_bind]
    rw [hfill]
    simp only [Option.some_bind]
    rw [hoff]
    rfl
  · show (0 : ℚ) < b + o
    linarith
  · show b + o < 5
    linarith

theorem spawn_raindrops_aux_spec (height : ℕ) (cs : List Char) (hcs : cs ≠ [])
    (hh : 3 * height < 2 ^ 31) :
    ∀ (cols : List ℕ) (acc : List Raindrop) (g : Rng), (∀ d ∈ acc, WFdrop d) →
      ∃ ds g', spawn_raindrops_aux height cs cols acc g = some (ds, g') ∧
        (∀ d ∈ ds, WFdrop d) ∧ (cols = [] → ds = acc) := by
  intro cols
  induction cols with
  | nil => intro acc g hacc; exact ⟨acc, g, rfl, hacc, fun _ => rfl⟩
  | cons x xs ih =>
    intro acc g hacc
    obtain ⟨d, g', hd, -, hwf⟩ := create_raindrop_spec height cs x g hcs hh
    obtain ⟨ds, g'', hds, hall, -⟩ := ih (acc ++ [d]) g' (by
      intro e he
      rcases List.mem_append.1 he with h | h
      · exact hacc e h
      · rcases List.mem_singleton.1 h with rfl; exact hwf)
    refine ⟨ds, g'', ?_, hall, by simp⟩
    rw [spawn_raindrops_aux, hd]
    simpa using hds

theorem get_charset_ne_nil : get_charset ≠ [] := by
  with_unfolding_all decide

theorem new_spec (width height : ℕ) (g : Rng) (hh : 3 * height < 2 ^ 31) :
    ∃ s, RainSimulation.new width height g = some s ∧ Inv s ∧
      s.width = width ∧ s.height = height := by
  obtain ⟨ds, g', hds, hall, hnil⟩ :=
    spawn_raindrops_aux_spec height get_charset get_charset_ne_nil hh
      (spawn_columns width) [] g (by simp)
  refine ⟨{ raindrops := ds, width := width, height := height, virtual_height := height * 3,
            frame_count := 0, rng := g', charset := get_charset,
            last_animation_frame := 0, last_midchain_frame := 0 },
    ?_, ⟨rfl, ?_, hall⟩, rfl, rfl⟩
  · rw [RainSimulation.new, RainSimulation.spawn_raindrops]
    simp only []
    rw [hds]
    rfl
  · intro hw
    show ds = []
    apply hnil
    rw [show width = 0 from hw]
    rfl

theorem resize_spec (s : RainSimulation) (width height : ℕ) (hh : 3 * height < 2 ^ 31) :
    ∃ s', RainSimulation.resize s width height = some s' ∧ Inv s' := by
  obtain ⟨ds, g', hds, hall, hnil⟩ :=
    spawn_raindrops_aux_spec height get_charset get_charset_ne_nil hh
      (spawn_columns width) [] s.rng (by simp)
  refine Exists.intro ({ s with raindrops := ds, width := width, height := height, virtual_height := height * 3, charset := get_charset, rng := g' }) ?_
  constructor
  · rw [RainSimulation.resize, RainSimulation.spawn_raindrops]
    simp only []
    rw [hds]
    rfl
  · exact ⟨rfl, fun hw => hnil (by rw [show width = 0 from hw]; rfl), hall⟩

/-! ### Inversion: any successful construction yields well-formed raindrops -/

theorem genRangeNat_inv {lo hi n : ℕ} {r : ℚ} (h : genRangeNat lo hi r = some n) :
    lo ≤ n ∧ n < hi := by
  by_cases hlt : lo < hi
  · obtain ⟨m, hm, h1, h2⟩ := genRangeNat_spec lo hi r hlt
    rw [hm] at h
    cases h
    exact ⟨h1, h2⟩
  · rw [genRangeNat, if_neg hlt] at h
    simp at h

theorem genRangeRat_inv {lo hi q r : ℚ} (h : genRangeRat lo hi r = some q) :
    lo ≤ q ∧ q < hi := by
  by_cases hlt : lo < hi
  · obtain ⟨m, hm, h1, h2⟩ := genRangeRat_spec lo hi r hlt
    rw [hm] at h
    cases h
    exact ⟨h1, h2⟩
  · rw [genRangeRat, if_neg hlt] at h
    simp at h

theorem drawNat_inv {lo hi n : ℕ} {g g' : Rng} (h : drawNat lo hi g = some (n, g')) :
    lo ≤ n ∧ n < hi := by
  rw [drawNat] at h
  cases hg : genRangeNat lo hi g.next.1 with
  | none => rw [hg] at h; simp at h
  | some m =>
    rw [hg] at h
    simp only [Option.map_some', Option.some.injEq, Prod.mk.injEq] at h
    obtain ⟨rfl, rfl⟩ := h
    exact genRangeNat_inv hg

theorem drawRat_inv {lo hi q : ℚ} {g g' : Rng} (h : drawRat lo hi g = some (q, g')) :
    lo ≤ q ∧ q < hi := by
  rw [drawRat] at h
  cases hg : genRangeRat lo hi g.next.1 with
  | none => rw [hg] at h; simp at h
  | some m =>
    rw [hg] at h
    simp only [Option.map_some', Option.some.injEq, Prod.mk.injEq] at h
    obtain ⟨rfl, rfl⟩ := h
    exact genRangeRat_inv hg

theorem setChar_inv {chars l : List Char} {i : ℕ} {c : Char}
    (h : setChar chars i c = some l) : l.length = chars.length := by
  rw [setChar] at h
  by_cases hi : i < chars.length
  · rw [if_pos hi] at h
    cases h
    simp
  · rw [if_neg hi] at h
    simp at h

theorem fillChars_inv (cs : List Char) :
    ∀ (n : ℕ) (chars chars' : List Char) (cc cc' : ℕ) (g g' : Rng),
      fillChars cs n chars cc g = some (chars', cc', g') →
      cc' = cc + n ∧ chars'.length = chars.length := by
  intro n
  induction n with
  | zero =>
    intro chars chars' cc cc' g g' h
    rw [fillChars] at h
    simp only [Option.some.injEq, Prod.mk.injEq] at h
    obtain ⟨rfl, rfl, rfl⟩ := h
    exact ⟨by omega, rfl⟩
  | succ n ih =>
    intro chars chars' cc cc' g g' h
    rw [fillChars] at h
    cases hdraw : drawChoice cs g with
    | none => rw [hdraw] at h; simp at h
    | some p =>
      obtain ⟨c, g1⟩ := p
      rw [hdraw] at h
      simp only [Option.bind_eq_bind, Option.some_bind] at h
      cases hset : setChar chars cc c with
      | none => rw [hset] at h; simp at h
      | some chars1 =>
        rw [hset] at h
        simp only [Option.some_bind] at h
        obtain ⟨h1, h2⟩ := ih chars1 chars' (cc + 1) cc' g1 g' h
        exact ⟨by omega, h2.trans (setChar_inv hset)⟩

theorem create_raindrop_inv {height x : ℕ} {cs : List Char} {g g' : Rng} {d : Raindrop}
    (h : create_raindrop height cs x g = some (d, g')) : d.x = x ∧ WFdrop d := by
  rw [create_raindrop] at h
  cases h1 : drawNat 42 70 g with
  | none => rw [h1] at h; simp at h
  | some p1 =>
    obtain ⟨L, g1⟩ := p1
    rw [h1] at h
    simp only [Option.bind_eq_bind, Option.some_bind] at h
    cases h2 : drawRat 2 4 g1 with
    | none => rw [h2] at h; simp at h
    | some p2 =>
      obtain ⟨b, g2⟩ := p2
      rw [h2] at h
      simp only [Option.some_bind] at h
      cases h3 : drawRat 0 1 g2 with
      | none => rw [h3] at h; simp at h
      | some p3 =>
        obtain ⟨o, g3⟩ := p3
        rw [h3] at h
        simp only [Option.some_bind] at h
        cases h4 : fillChars cs (min L 80) (List.replicate 80 ' ') 0 g3 with
        | none => rw [h4] at h; simp at h
        | some p4 =>
          obtain ⟨chars1, cc1, g4⟩ := p4
          rw [h4] at h
          simp only [Option.some_bind] at h
          cases h5 : drawIntIncl 0 (i32wrap (usizeToI32 height * 3)) g4 with
          | none => rw [h5] at h; simp at h
          | some p5 =>
            obtain ⟨off, g5⟩ := p5
            rw [h5] at h
            simp only [Option.some_bind] at h
            obtain ⟨hL1, hL2⟩ := drawNat_inv h1
            obtain ⟨hb1, hb2⟩ := drawRat_inv h2
            obtain ⟨ho1, ho2⟩ := drawRat_inv h3
            obtain ⟨hcc, hlen⟩ := fillChars_inv cs (min L 80) _ chars1 0 cc1 g3 g4 h4
            cases h
            have hmin : min L 80 = L := Nat.min_eq_left (by omega)
            refine ⟨rfl, ?_, ?_, hL1, hL2, ?_, ?_⟩
            · show (0 : ℚ) < b + o
              linarith
            · show b + o < 5
              linarith
            · show cc1 = L
              omega
            · show chars1.length = 80
              simpa using hlen

theorem spawn_raindrops_aux_inv (height : ℕ) (cs : List Char) :
    ∀ (cols : List ℕ) (acc ds : List Raindrop) (g g' : Rng),
      spawn_raindrops_aux height cs cols acc g = some (ds, g') →
      (∀ d ∈ acc, WFdrop d) →
      (∀ d ∈ ds, WFdrop d) ∧ (cols = [] → ds = acc) := by
  intro cols
  induction cols with
  | nil =>
    intro acc ds g g' h hacc
    rw [spawn_raindrops_aux] at h
    simp only [Option.some.injEq, Prod.mk.injEq] at h
    obtain ⟨rfl, rfl⟩ := h
    exact ⟨hacc, fun _ => rfl⟩
  | cons x xs ih =>
    intro acc ds g g' h hacc
    rw [spawn_raindrops_aux] at h
    cases hc : create_raindrop height cs x g with
    | none => rw [hc] at h; simp at h
    | some p =>
      obtain ⟨d, g1⟩ := p
      rw [hc] at h
      simp only [Option.bind_eq_bind, Option.some_bind] at h
      obtain ⟨-, hwf⟩ := create_raindrop_inv hc
      obtain ⟨hall, -⟩ := ih (acc ++ [d]) ds g1 g' h (by
        intro e he
        rcases List.mem_append.1 he with he | he
        · exact hacc e he
        · rcases List.mem_singleton.1 he with rfl
          exact hwf)
      exact ⟨hall, by simp⟩

theorem spawn_raindrops_inv {t s : RainSimulation} (heq : t.spawn_raindrops = some s) :
    ∃ ds g', spawn_raindrops_aux t.height t.charset (spawn_columns t.width)
        t.raindrops t.rng = some (ds, g') ∧
      s = { t with raindrops := ds, rng := g' } := by
  rw [RainSimulation.spawn_raindrops] at heq
  cases haux : spawn_raindrops_aux t.height t.charset (spawn_columns t.width)
      t.raindrops t.rng with
  | none => rw [haux] at heq; simp at heq
  | some p =>
    obtain ⟨ds, g'⟩ := p
    rw [haux] at heq
    simp only [Option.bind_eq_bind, Option.some_bind] at heq
    exact ⟨ds, g', rfl, (Option.some.inj heq).symm⟩

theorem new_inv {w h : ℕ} {g : Rng} {s : RainSimulation}
    (heq : RainSimulation.new w h g = some s) : Inv s := by
  rw [RainSimulation.new] at heq
  obtain ⟨ds, g', haux, rfl⟩ := spawn_raindrops_inv heq
  obtain ⟨hall, hnil⟩ :=
    spawn_raindrops_aux_inv h get_charset (spawn_columns w) [] ds g g' haux (by simp)
  exact ⟨rfl, fun hw => hnil (by rw [show w = 0 from hw]; rfl), hall⟩

theorem resize_inv {s s' : RainSimulation} {w h : ℕ}
    (heq : RainSimulation.resize s w h = some s') : Inv s' := by
  rw [RainSimulation.resize] at heq
  obtain ⟨ds, g', haux, rfl⟩ := spawn_raindrops_inv heq
  obtain ⟨hall, hnil⟩ :=
    spawn_raindrops_aux_inv h get_charset (spawn_columns w) [] ds s.rng g' haux (by simp)
  exact ⟨rfl, fun hw => hnil (by rw [show w = 0 from hw]; rfl), hall⟩

/-! ### Shape-preserving phases: movement and glyph animation -/

theorem skel_refl (d : Raindrop) : Skel d d :=
  ⟨Eq.refl _, Eq.refl _, Eq.refl _, Eq.refl _, Eq.refl _, Eq.refl _⟩

theorem Skel.trans {a b c : Raindrop} (h1 : Skel a b) (h2 : Skel b c) : Skel a c := by
  obtain ⟨x1, y1, s1, l1, c1, n1⟩ := h1
  obtain ⟨x2, y2, s2, l2, c2, n2⟩ := h2
  exact ⟨x2.trans x1, y2.trans y1, s2.trans s1, l2.trans l1, c2.trans c1, n2.trans n1⟩

theorem skel_wf {d d' : Raindrop} (h : Skel d d') (hwf : WFdrop d) : WFdrop d' := by
  obtain ⟨hx, hy, hs, hl, hc, hn⟩ := h
  obtain ⟨w1, w2, w3, w4, w5, w6⟩ := hwf
  exact ⟨hs ▸ w1, hs ▸ w2, hl ▸ w3, hl ▸ w4, by rw [hc, hl]; exact w5, hn ▸ w6⟩

theorem dropRel_refl {R : Raindrop → Raindrop → Prop} (hR : ∀ d, R d d)
    (l : List Raindrop) : DropRel R l l := by
  refine ⟨rfl, fun i d d' h1 h2 => ?_⟩
  rw [h1] at h2
  cases h2
  exact hR d

theorem DropRel.cons {R : Raindrop → Raindrop → Prop} {d d' : Raindrop}
    {l l' : List Raindrop} (hd : R d d') (hl : DropRel R l l') :
    DropRel R (d :: l) (d' :: l') := by
  refine ⟨by simp [hl.len], fun i a a' h1 h2 => ?_⟩
  match i with
  | 0 =>
    simp only [List.getElem?_cons_zero] at h1 h2
    cases h1; cases h2; exact hd
  | i + 1 =>
    simp only [List.getElem?_cons_succ] at h1 h2
    exact hl.rel i a a' h1 h2

theorem DropRel.comp {R S T : Raindrop → Raindrop → Prop}
    (hRST : ∀ a b c, R a b → S b c → T a c) {l1 l2 l3 : List Raindrop}
    (h1 : DropRel R l1 l2) (h2 : DropRel S l2 l3) : DropRel T l1 l3 := by
  refine ⟨h1.len ▸ h2.len, fun i a c ha hc => ?_⟩
  have hi : i < l2.length := by
    obtain ⟨hl, -⟩ := List.getElem?_eq_some.1 hc
    have := h2.len
    omega
  exact hRST a l2[i] c (h1.rel i a l2[i] ha (List.getElem?_eq_getElem hi))
    (h2.rel i l2[i] c (List.getElem?_eq_getElem hi) hc)

theorem DropRel.wf_transport {R : Raindrop → Raindrop → Prop}
    (hR : ∀ d d', R d d' → WFdrop d → WFdrop d') {l l' : List Raindrop}
    (h : DropRel R l l') (hwf : ∀ d ∈ l, WFdrop d) : ∀ d' ∈ l', WFdrop d' := by
  intro d' hd'
  obtain ⟨i, hi⟩ := List.mem_iff_getElem?.1 hd'
  have hlen : i < l.length := by
    obtain ⟨h1, -⟩ := List.getElem?_eq_some.1 hi
    have := h.len
    omega
  exact hR l[i] d' (h.rel i l[i] d' (List.getElem?_eq_getElem hlen) hi)
    (hwf l[i] (List.getElem_mem hlen))

theorem DropRel.set {R : Raindrop → Raindrop → Prop} (hrefl : ∀ d, R d d)
    {l : List Raindrop} {i : ℕ} {d d' : Raindrop}
    (h : l[i]? = some d) (hR : R d d') : DropRel R l (l.set i d') := by
  have hi : i < l.length := (List.getElem?_eq_some.1 h).1
  refine ⟨by simp, fun j a a' h1 h2 => ?_⟩
  by_cases hij : i = j
  · subst hij
    rw [List.getElem?_set_self hi] at h2
    cases h2
    rw [h] at h1
    cases h1
    exact hR
  · rw [List.getElem?_set_ne hij] at h2
    rw [h1] at h2
    cases h2
    exact hrefl a

theorem animate_heads_aux_spec (cs : List Char) (hcs : cs ≠ []) :
    ∀ (l : List Raindrop) (g : Rng), (∀ d ∈ l, WFdrop d) →
      ∃ l' g', animate_heads_aux cs l g = some (l', g') ∧ DropRel Skel l l' := by
  intro l
  induction l with
  | nil => intro g _; exact ⟨[], g, rfl, dropRel_refl skel_refl []⟩
  | cons d ds ih =>
    intro g hwf
    by_cases hcc : d.char_count > 0
    · obtain ⟨c, g', hdraw⟩ := drawChoice_spec cs g hcs
      have hlen : 0 < d.chars.length := by
        have := (hwf d (List.mem_cons_self d ds)).2.2.2.2.2
        omega
      obtain ⟨rest, g'', hrest, hrel⟩ := ih g' (fun e he => hwf e (List.mem_cons_of_mem d he))
      refine ⟨{ d with chars := d.chars.set 0 c } :: rest, g'', ?_, ?_⟩
      · rw [animate_heads_aux, if_pos hcc, hdraw]
        simp only [Option.bind_eq_bind, Option.some_bind, setChar_spec d.chars 0 c hlen]
        rw [hrest]
        rfl
      · exact DropRel.cons ⟨rfl, rfl, rfl, rfl, rfl, by simp⟩ hrel
    · obtain ⟨rest, g'', hrest, hrel⟩ := ih g (fun e he => hwf e (List.mem_cons_of_mem d he))
      refine ⟨d :: rest, g'', ?_, DropRel.cons (skel_refl d) hrel⟩
      rw [animate_heads_aux, if_neg hcc, hrest]
      rfl

theorem animate_glyphs_spec (s : RainSimulation) (hcs : s.charset ≠ [])
    (hwf : ∀ d ∈ s.raindrops, WFdrop d) :
    ∃ s', s.animate_glyphs = some s' ∧ s'.width = s.width ∧ s'.height = s.height ∧
      s'.charset = s.charset ∧ s'.frame_count = s.frame_count ∧
      DropRel Skel s.raindrops s'.raindrops := by
  by_cases hgate : 8 ≤ u32sub s.frame_count s.last_animation_frame
  · obtain ⟨l', g', hl, hrel⟩ := animate_heads_aux_spec s.charset hcs s.raindrops s.rng hwf
    refine ⟨{ s with last_animation_frame := s.frame_count, raindrops := l', rng := g' }, ?_, rfl, rfl, rfl, rfl, hrel⟩
    rw [RainSimulation.animate_glyphs, if_pos hgate, hl]
    rfl
  · exact ⟨s, by rw [RainSimulation.animate_glyphs, if_neg hgate], rfl, rfl, rfl, rfl,
      dropRel_refl skel_refl s.raindrops⟩

theorem visible_positions_mem (height : ℕ) (d : Raindrop) (k : ℕ)
    (hk : k ∈ visible_positions height d) : 1 ≤ k ∧ k < d.char_count := by
  obtain ⟨hr, hp⟩ := List.mem_filter.1 hk
  have h1 := List.mem_range.1 hr
  simp only [Bool.and_eq_true, decide_eq_true_eq] at hp
  exact ⟨hp.1.1, h1⟩

theorem animate_midchain_body_spec (s : RainSimulation) (hcs : s.charset ≠ [])
    (hwf : ∀ d ∈ s.raindrops, WFdrop d) :
    ∃ s', animate_midchain_body s = some s' ∧ s'.width = s.width ∧ s'.height = s.height ∧
      s'.charset = s.charset ∧ s'.frame_count = s.frame_count ∧
      s'.last_animation_frame = s.last_animation_frame ∧
      s'.last_midchain_frame = s.last_midchain_frame ∧
      DropRel Skel s.raindrops s'.raindrops := by
  by_cases hemp : s.raindrops.isEmpty
  · exact ⟨s, by rw [animate_midchain_body, if_pos hemp], rfl, rfl, rfl, rfl, rfl, rfl,
      dropRel_refl skel_refl s.raindrops⟩
  · have hpos : 0 < s.raindrops.length := by
      cases hl : s.raindrops with
      | nil => rw [hl] at hemp; simp at hemp
      | cons a as => simp [hl]
    obtain ⟨idx, g1, hidx, -, hidxlt⟩ := drawNat_spec 0 s.raindrops.length s.rng hpos
    have hget : s.raindrops[idx]? = some s.raindrops[idx] := List.getElem?_eq_getElem hidxlt
    have hdwf : WFdrop s.raindrops[idx] := hwf _ (List.getElem_mem hidxlt)
    by_cases hcc : s.raindrops[idx].char_count ≤ 1
    · refine ⟨{ s with rng := g1 }, ?_, rfl, rfl, rfl, rfl, rfl, rfl,
        dropRel_refl skel_refl s.raindrops⟩
      rw [animate_midchain_body, if_neg hemp, hidx]
      simp only [Option.bind_eq_bind, Option.some_bind]
      rw [hget]
      simp only [Option.some_bind]
      rw [if_pos hcc]
      rfl
    · by_cases hvis : (visible_positions s.height s.raindrops[idx]).isEmpty
      · refine ⟨{ s with rng := g1 }, ?_, rfl, rfl, rfl, rfl, rfl, rfl,
          dropRel_refl skel_refl s.raindrops⟩
        rw [animate_midchain_body, if_neg hemp, hidx]
        simp only [Option.bind_eq_bind, Option.some_bind]
        rw [hget]
        simp only [Option.some_bind]
        rw [if_neg hcc, if_pos hvis]
        rfl
      · have hvpos : 0 < (visible_positions s.height s.raindrops[idx]).length := by
          cases hl : visible_positions s.height s.raindrops[idx] with
          | nil => rw [hl] at hvis; simp at hvis
          | cons a as => simp [hl]
        obtain ⟨pos, g2, hpos2, -, hposlt⟩ :=
          drawNat_spec 0 (visible_positions s.height s.raindrops[idx]).length g1 hvpos
        have hvget : (visible_positions s.height s.raindrops[idx])[pos]? =
            some (visible_positions s.height s.raindrops[idx])[pos] :=
          List.getElem?_eq_getElem hposlt
        obtain ⟨hcp1, hcp2⟩ := visible_positions_mem s.height s.raindrops[idx] _
          (List.getElem_mem hposlt)
        obtain ⟨c, g3, hdraw⟩ := drawChoice_spec s.charset g2 hcs
        have hcplen : (visible_positions s.height s.raindrops[idx])[pos] <
            s.raindrops[idx].chars.length := by
          have h80 := hdwf.2.2.2.2.2
          have hcl := hdwf.2.2.2.2.1
          have hl70 := hdwf.2.2.2.1
          omega
        refine ⟨{ s with raindrops := s.raindrops.set idx { s.raindrops[idx] with chars := s.raindrops[idx].chars.set (visible_positions s.height s.raindrops[idx])[pos] c }, rng := g3 }, ?_, rfl, rfl, rfl, rfl, rfl, rfl, DropRel.set skel_refl hget ⟨rfl, rfl, rfl, rfl, rfl, by simp⟩⟩
        rw [animate_midchain_body, if_neg hemp, hidx]
        simp only [Option.bind_eq_bind, Option.some_bind]
        rw [hget]
        simp only [Option.some_bind]
        rw [if_neg hcc, if_neg hvis, hpos2]
        simp only [Option.some_bind]
        rw [hvget]
        simp only [Option.some_bind]
        rw [hdraw]
        simp only [Option.some_bind]
        rw [setChar_spec _ _ _ hcplen]
        rfl

theorem animate_midchain_spec (s : RainSimulation) (hcs : s.charset ≠ [])
    (hwf : ∀ d ∈ s.raindrops, WFdrop d) :
    ∃ s', s.animate_midchain = some s' ∧ s'.width = s.width ∧ s'.height = s.height ∧
      s'.charset = s.charset ∧ s'.frame_count = s.frame_count ∧
      DropRel Skel s.raindrops s'.raindrops := by
  by_cases hgate : 6 ≤ u32sub s.frame_count s.last_midchain_frame
  · obtain ⟨s', hs', h1, h2, h3, h4, -, -, h5⟩ :=
      animate_midchain_body_spec { s with last_midchain_frame := s.frame_count } hcs hwf
    refine ⟨s', ?_, h1, h2, h3, h4, h5⟩
    rw [RainSimulation.animate_midchain, if_pos hgate, hs']
  · exact ⟨s, by rw [RainSimulation.animate_midchain, if_neg hgate], rfl, rfl, rfl, rfl,
      dropRel_refl skel_refl s.raindrops⟩

/-! ### The recycling phase and the end-to-end update characterisation -/

theorem recycleR_wf {w h : ℕ} {d d' : Raindrop} (hr : RecycleR w h d d')
    (hwf : WFdrop d) : WFdrop d' := by
  by_cases hc : recycleCond h d
  · obtain ⟨-, -, hs, h1, h2, h3, h4⟩ := hr.1 hc
    exact ⟨hs ▸ hwf.1, hs ▸ hwf.2.1, h1, h2, h3, h4⟩
  · rw [hr.2 hc]
    exact hwf

theorem recycle_aux_spec (w h : ℕ) (cs : List Char) (hcs : cs ≠ []) :
    ∀ (l : List Raindrop) (g : Rng), (0 < w ∨ l = []) →
      ∃ l' g', recycle_aux w h cs l g = some (l', g') ∧ DropRel (RecycleR w h) l l' := by
  intro l
  induction l with
  | nil => intro g _; exact ⟨[], g, rfl, ⟨rfl, fun i d d' h1 _ => by simp at h1⟩⟩
  | cons d ds ih =>
    intro g hw
    have hwpos : 0 < w := by
      rcases hw with hw | hw
      · exact hw
      · exact absurd hw (by simp)
    by_cases hc : recycleCond h d
    · obtain ⟨nx, g1, hnx, -, hnxlt⟩ := drawNat_spec 0 w g hwpos
      obtain ⟨d2, g2, hreg, hx, hy, hs, hl1, hl2, hclc, hcl80⟩ :=
        regenerate_chars_spec { d with y := -(h : ℤ), x := nx } cs g1 hcs
      obtain ⟨rest, g3, hrest, hrel⟩ := ih g2 (Or.inl hwpos)
      refine ⟨d2 :: rest, g3, ?_, DropRel.cons ⟨fun _ => ⟨hy, hx ▸ hnxlt, hs, hl1, hl2, hclc, hcl80⟩, fun hnc => absurd hc hnc⟩ hrel⟩
      rw [recycle_aux, if_pos hc, hnx]
      simp only [Option.bind_eq_bind, Option.some_bind]
      rw [hreg]
      simp only [Option.some_bind]
      rw [hrest]
      rfl
    · obtain ⟨rest, g3, hrest, hrel⟩ := ih g (Or.inl hwpos)
      refine ⟨d :: rest, g3, ?_, DropRel.cons ⟨fun hcon => absurd hcon hc, fun _ => rfl⟩ hrel⟩
      rw [recycle_aux, if_neg hc, hrest]
      rfl

theorem moveDrop_wf {d : Raindrop} (hwf : WFdrop d) : WFdrop (moveDrop d) :=
  hwf

theorem skel_then_recycle {w h : ℕ} (a b c : Raindrop)
    (hab : Skel (moveDrop a) b) (hbc : RecycleR w h b c) : UpdateR w h a c := by
  obtain ⟨hx, hy, hs, hl, hcc, hcl⟩ := hab
  have hcond : recycleCond h b ↔ recycleCond h (moveDrop a) := by
    unfold recycleCond
    rw [hy, hcc]
  by_cases hc : recycleCond h (moveDrop a)
  · obtain ⟨h1, h2, h3, h4, h5, h6, h7⟩ := hbc.1 (hcond.2 hc)
    exact ⟨h3.trans hs, fun _ => ⟨h1, h2, h4, h5, h6⟩, fun hnc => absurd hc hnc⟩
  · have hcb : c = b := hbc.2 (fun hcon => hc (hcond.1 hcon))
    subst hcb
    exact ⟨hs, fun hcon => absurd hcon hc, fun _ => ⟨hy, hx, hl, hcc, hcl⟩⟩

theorem update_spec (s : RainSimulation) (hInv : Inv s) :
    ∃ s', s.update = some s' ∧ Inv s' ∧ s'.width = s.width ∧ s'.height = s.height ∧
      DropRel (UpdateR s.width s.height) s.raindrops s'.raindrops := by
  obtain ⟨hcs, hw0, hwf⟩ := hInv
  have hcsne : s.charset ≠ [] := by rw [hcs]; exact get_charset_ne_nil
  have hwf1 : ∀ d ∈ s.raindrops.map moveDrop, WFdrop d := by
    intro d hd
    obtain ⟨e, he, hfe⟩ := List.mem_map.1 hd
    rw [show d = moveDrop e from hfe.symm]
    exact moveDrop_wf (hwf e he)
  have hrelmove : DropRel (fun a b => b = moveDrop a) s.raindrops (s.raindrops.map moveDrop) := by
    refine ⟨by simp, fun i a b h1 h2 => ?_⟩
    rw [List.getElem?_map, h1] at h2
    cases h2
    rfl
  obtain ⟨s1, hg, hgw, hgh, hgc, hgf, hgrel⟩ :=
    animate_glyphs_spec { s with frame_count := (s.frame_count + 1) % 2 ^ 32, raindrops := s.raindrops.map moveDrop } hcsne hwf1
  have hwf2 : ∀ d ∈ s1.raindrops, WFdrop d :=
    DropRel.wf_transport (fun d d' h hw => skel_wf h hw) hgrel hwf1
  have hcs1 : s1.charset ≠ [] := by rw [hgc]; exact hcsne
  obtain ⟨s2, hm, hmw, hmh, hmc, hmf, hmrel⟩ := animate_midchain_spec s1 hcs1 hwf2
  have hwf3 : ∀ d ∈ s2.raindrops, WFdrop d :=
    DropRel.wf_transport (fun d d' h hw => skel_wf h hw) hmrel hwf2
  have hcs2 : s2.charset = get_charset := by rw [hmc, hgc]; exact hcs
  have hcs2ne : s2.charset ≠ [] := by rw [hcs2]; exact get_charset_ne_nil
  have hw2 : s2.width = s.width := by rw [hmw, hgw]
  have hh2 : s2.height = s.height := by rw [hmh, hgh]
  have hlen2 : s2.raindrops.length = s.raindrops.length := by
    rw [hmrel.len, hgrel.len, List.length_map]
  have hside : 0 < s2.width ∨ s2.raindrops = [] := by
    by_cases hz : s.width = 0
    · right
      have : s.raindrops = [] := hw0 hz
      rw [← List.length_eq_zero, hlen2, this]
      rfl
    · left
      rw [hw2]
      omega
  obtain ⟨l4, g4, hrec, hrrel⟩ :=
    recycle_aux_spec s2.width s2.height s2.charset hcs2ne s2.raindrops s2.rng hside
  refine ⟨{ s2 with raindrops := l4, rng := g4 }, ?_, ?_, hw2, hh2, ?_⟩
  · rw [RainSimulation.update]
    simp only [Option.bind_eq_bind]
    rw [hg]
    simp only [Option.some_bind]
    rw [hm]
    simp only [Option.some_bind]
    rw [hrec]
    rfl
  · refine ⟨hcs2, ?_, ?_⟩
    · intro hz
      show l4 = []
      rw [hw2] at hz
      have : s2.raindrops = [] := by
        have h0 : s.raindrops = [] := hw0 hz
        rw [← List.length_eq_zero, hlen2, h0]
        rfl
      rw [← List.length_eq_zero, hrrel.len, this]
      rfl
    · exact DropRel.wf_transport (fun d d' h hw => recycleR_wf h hw) hrrel hwf3
  · have hskel : DropRel Skel (s.raindrops.map moveDrop) s2.raindrops :=
      @DropRel.comp Skel Skel Skel (fun a b c h1 h2 => Skel.trans h1 h2) _ _ _ hgrel hmrel
    have hms : DropRel (fun a c => Skel (moveDrop a) c) s.raindrops s2.raindrops :=
      @DropRel.comp (fun a b => b = moveDrop a) Skel (fun a c => Skel (moveDrop a) c)
        (fun a b c h1 h2 => by rw [h1] at h2; exact h2) _ _ _ hrelmove hskel
    have := @DropRel.comp (fun a c => Skel (moveDrop a) c) (RecycleR s2.width s2.height)
      (UpdateR s2.width s2.height)
      (fun a b c h1 h2 => skel_then_recycle a b c h1 h2) _ _ _ hms hrrel
    rw [hw2, hh2] at this
    exact this

/-- Every reachable state satisfies the global invariant. -/
theorem reachable_inv {s : RainSimulation} (h : Reachable s) : Inv s := by
  induction h with
  | init w h g s heq => exact new_inv heq
  | step s s' hr heq ih =>
    obtain ⟨s0, heq0, hInv, -, -, -⟩ := update_spec s ih
    rw [heq0] at heq
    cases heq
    exact hInv
  | resize s s' w h hr heq ih => exact resize_inv heq

theorem emitRow_lengths (gm : Char → Option GlyphMetrics) (w h : ℕ) (d : Raindrop)
    (acc : List Vertex × List ℕ) (kc : ℕ × Char) :
    (emitRow gm w h d acc kc).1.length = acc.1.length + (if emitP gm h d kc then 4 else 0) ∧
    (emitRow gm w h d acc kc).2.length = acc.2.length + (if emitP gm h d kc then 6 else 0) := by
  rw [emitRow, emitP]
  cases hgm : gm kc.2 with
  | none => simp [hgm]
  | some m =>
    simp only [hgm, Option.isSome_some, Bool.true_and]
    by_cases hlo : -50 ≤ (d.y : ℚ) - (kc.1 : ℚ) * 32
    · by_cases hhi : (d.y : ℚ) - (kc.1 : ℚ) * 32 ≤ (h : ℚ) + 50
      · rw [if_neg (by push_neg; exact ⟨hlo, hhi⟩)]
        simp [hlo, hhi, quadVertices, quadIndices]
      · rw [if_pos (Or.inr (lt_of_not_le hhi))]
        simp [hhi]
    · rw [if_pos (Or.inl (lt_of_not_le hlo))]
      simp [hlo]

theorem foldl_emitRow_lengths (gm : Char → Option GlyphMetrics) (w h : ℕ) (d : Raindrop) :
    ∀ (l : List (ℕ × Char)) (acc : List Vertex × List ℕ),
      (l.foldl (emitRow gm w h d) acc).1.length =
          acc.1.length + 4 * l.countP (emitP gm h d) ∧
      (l.foldl (emitRow gm w h d) acc).2.length =
          acc.2.length + 6 * l.countP (emitP gm h d) := by
  intro l
  induction l with
  | nil => intro acc; simp
  | cons kc ks ih =>
    intro acc
    obtain ⟨h1, h2⟩ := emitRow_lengths gm w h d acc kc
    obtain ⟨ih1, ih2⟩ := ih (emitRow gm w h d acc kc)
    rw [List.foldl_cons]
    constructor
    · rw [ih1, h1, List.countP_cons]
      by_cases hp : emitP gm h d kc
      · simp [hp]; ring
      · simp [hp]
    · rw [ih2, h2, List.countP_cons]
      by_cases hp : emitP gm h d kc
      · simp [hp]; ring
      · simp [hp]

theorem generate_vertex_data_aux_spec (gm : Char → Option GlyphMetrics) (w h : ℕ) :
    ∀ (drops : List Raindrop) (acc : List Vertex × List ℕ),
      (∀ d ∈ drops, d.char_count ≤ d.chars.length) →
      ∃ out, generate_vertex_data_aux gm w h drops acc = some out ∧
        out.1.length = acc.1.length + 4 * quadCount gm h drops ∧
        out.2.length = acc.2.length + 6 * quadCount gm h drops := by
  intro drops
  induction drops with
  | nil => intro acc _; exact ⟨acc, rfl, by simp [quadCount], by simp [quadCount]⟩
  | cons d ds ih =>
    intro acc hwf
    have hd : d.char_count ≤ d.chars.length := hwf d (List.mem_cons_self d ds)
    obtain ⟨f1, f2⟩ :=
      foldl_emitRow_lengths gm w h d ((d.chars.take d.char_count).enum) acc
    obtain ⟨out, hout, ho1, ho2⟩ :=
      ih (((d.chars.take d.char_count).enum).foldl (emitRow gm w h d) acc)
        (fun e he => hwf e (List.mem_cons_of_mem d he))
    refine ⟨out, ?_, ?_, ?_⟩
    · rw [generate_vertex_data_aux, generateDrop, if_pos hd]
      simp only [Option.bind_eq_bind, Option.some_bind]
      exact hout
    · rw [ho1, f1]
      simp only [quadCount, List.map_cons, List.sum_cons]
      ring
    · rw [ho2, f2]
      simp only [quadCount, List.map_cons, List.sum_cons]
      ring

/-! ### Color facts for the vertex generator -/

theorem quadColor_head (d : Raindrop) : quadColor d 0 = (1, 1, 1, 1) := by
  simp [quadColor]

theorem quadVertices_color (w h : ℕ) (d : Raindrop) (k : ℕ) (m : GlyphMetrics) :
    ∀ v ∈ quadVertices w h d k m, v.color = quadColor d k := by
  intro v hv
  simp only [quadVertices, List.mem_cons, List.not_mem_nil, or_false] at hv
  rcases hv with rfl | rfl | rfl | rfl <;> rfl

theorem quadColor_green_eq (d : Raindrop) (k : ℕ) (hk : k ≠ 0) :
    green (quadColor d k) =
      min (max ((1 - (k : ℚ) / (d.length : ℚ)) * (7 / 10) + 1 / 10) 0) 1 := by
  simp [quadColor, green, hk]

theorem quadColor_green_floor (d : Raindrop) (k : ℕ) (hk : 0 < k)
    (hL : 0 < d.length) (hkL : k ≤ d.length) : 1 / 10 ≤ green (quadColor d k) := by
  rw [quadColor_green_eq d k (Nat.pos_iff_ne_zero.1 hk)]
  have hLq : (0 : ℚ) < (d.length : ℚ) := by exact_mod_cast hL
  have hdiv : (k : ℚ) / (d.length : ℚ) ≤ 1 := by
    rw [div_le_one hLq]
    exact_mod_cast hkL
  have hraw : 1 / 10 ≤ (1 - (k : ℚ) / (d.length : ℚ)) * (7 / 10) + 1 / 10 := by
    nlinarith
  exact le_min (le_max_of_le_left hraw) (by norm_num)

theorem quadColor_green_mono (d : Raindrop) (k₁ k₂ : ℕ) (h1 : 0 < k₁) (h12 : k₁ ≤ k₂)
    (hL : 0 < d.length) : green (quadColor d k₂) ≤ green (quadColor d k₁) := by
  rw [quadColor_green_eq d k₁ (Nat.pos_iff_ne_zero.1 h1),
    quadColor_green_eq d k₂ (Nat.pos_iff_ne_zero.1 (by omega))]
  have hLq : (0 : ℚ) < (d.length : ℚ) := by exact_mod_cast hL
  have hdiv : (k₁ : ℚ) / (d.length : ℚ) ≤ (k₂ : ℚ) / (d.length : ℚ) :=
    (div_le_div_iff_of_pos_right hLq).2 (by exact_mod_cast h12)
  have hraw : (1 - (k₂ : ℚ) / (d.length : ℚ)) * (7 / 10) + 1 / 10 ≤
      (1 - (k₁ : ℚ) / (d.length : ℚ)) * (7 / 10) + 1 / 10 := by nlinarith
  exact min_le_min (max_le_max hraw le_rfl) le_rfl

theorem sInit_reachable : Reachable sInit :=
  Reachable.init 40 100 rngZero sInit (by with_unfolding_all rfl)

theorem sInit_raindrops_eq : sInit.raindrops = [dInit] := by
  with_unfolding_all rfl

theorem dInit_mem : dInit ∈ sInit.raindrops := by
  rw [sInit_raindrops_eq]
  exact List.mem_singleton.2 rfl

/-- Whatever branch `animate_midchain_body` takes, it returns a state with
the same `last_midchain_frame` as its input. -/
theorem animate_midchain_body_last (t s' : RainSimulation)
    (heq : animate_midchain_body t = some s') :
    s'.last_midchain_frame = t.last_midchain_frame := by
  rw [animate_midchain_body] at heq
  by_cases hemp : t.raindrops.isEmpty
  · rw [if_pos hemp] at heq
    cases heq
    rfl
  · rw [if_neg hemp] at heq
    cases hdraw : drawNat 0 t.raindrops.length t.rng with
    | none => rw [hdraw] at heq; simp at heq
    | some p =>
      obtain ⟨idx, g⟩ := p
      rw [hdraw] at heq
      simp only [Option.bind_eq_bind, Option.some_bind] at heq
      cases hget : t.raindrops[idx]? with
      | none => rw [hget] at heq; simp at heq
      | some d =>
        rw [hget] at heq
        simp only [Option.some_bind] at heq
        by_cases hcc : d.char_count ≤ 1
        · rw [if_pos hcc] at heq
          cases heq
          rfl
        · rw [if_neg hcc] at heq
          by_cases hvis : (visible_positions t.height d).isEmpty
          · rw [if_pos hvis] at heq
            cases heq
            rfl
          · rw [if_neg hvis] at heq
            cases hdraw2 : drawNat 0 (visible_positions t.height d).length g with
            | none => rw [hdraw2] at heq; simp at heq
            | some p2 =>
              obtain ⟨pos, g2⟩ := p2
              rw [hdraw2] at heq
              simp only [Option.some_bind] at heq
              cases hvget : (visible_positions t.height d)[pos]? with
              | none => rw [hvget] at heq; simp at heq
              | some cp =>
                rw [hvget] at heq
                simp only [Option.some_bind] at heq
                cases hdraw3 : drawChoice t.charset g2 with
                | none => rw [hdraw3] at heq; simp at heq
                | some p3 =>
                  obtain ⟨c, g3⟩ := p3
                  rw [hdraw3] at heq
                  simp only [Option.some_bind] at heq
                  cases hset : setChar d.chars cp c with
                  | none => rw [hset] at heq; simp at heq
                  | some chars =>
                    rw [hset] at heq
                    simp only [Option.some_bind] at heq
                    cases heq
                    rfl

/-! ### Claim theorems -/

/-- C1: for every simulation state with well-formed chains (as in every
reachable state) and every glyph map, `generate_vertex_data` succeeds — an
atlas miss never aborts the frame — and emits exactly one quad (4 vertices
and 6 indices) per (raindrop, row) pair whose computed row position
`y − 32·row` lies within `[−50, height + 50]` and whose character has an
entry in the glyph map. -/
theorem C1_quad_per_visible_mapped_row (s : RainSimulation)
    (gm : Char → Option GlyphMetrics)
    (hwf : ∀ d ∈ s.raindrops, d.char_count ≤ d.chars.length) :
    ∃ out, s.generate_vertex_data gm = some out ∧
      out.1.length = 4 * quadCount gm s.height s.raindrops ∧
      out.2.length = 6 * quadCount gm s.height s.raindrops := by
  obtain ⟨out, h, h1, h2⟩ :=
    generate_vertex_data_aux_spec gm s.width s.height s.raindrops ([], []) hwf
  exact ⟨out, h, by simpa using h1, by simpa using h2⟩

theorem C1_witness :
    (∀ d ∈ sVis.raindrops, d.char_count ≤ d.chars.length) ∧
    ∃ out, sVis.generate_vertex_data gmFull = some out ∧
      out.1.length = 4 * quadCount gmFull sVis.height sVis.raindrops ∧
      out.2.length = 6 * quadCount gmFull sVis.height sVis.raindrops :=
  ⟨by decide, C1_quad_per_visible_mapped_row sVis gmFull (by decide)⟩

/-- C2: in every reachable state, the head row (index 0) of every raindrop
gets the exact color (1,1,1,1), every vertex of an emitted quad carries the
row's color, and for rows `k > 0` the green channel is non-increasing in `k`
and never drops below the fixed floor 1/10. -/
theorem C2_head_white_green_fade (s : RainSimulation) (hr : Reachable s) :
    ∀ d ∈ s.raindrops,
      quadColor d 0 = (1, 1, 1, 1) ∧
      (∀ (w h k : ℕ) (m : GlyphMetrics), ∀ v ∈ quadVertices w h d k m,
        v.color = quadColor d k) ∧
      (∀ k₁ k₂ : ℕ, 0 < k₁ → k₁ ≤ k₂ → k₂ < d.char_count →
        green (quadColor d k₂) ≤ green (quadColor d k₁)) ∧
      (∀ k : ℕ, 0 < k → k < d.char_count → 1 / 10 ≤ green (quadColor d k)) := by
  intro d hd
  obtain ⟨-, -, hwf⟩ := reachable_inv hr
  obtain ⟨-, -, hl42, -, hccl, -⟩ := hwf d hd
  have hL : 0 < d.length := by omega
  refine ⟨quadColor_head d, fun w h k m => quadVertices_color w h d k m, ?_, ?_⟩
  · intro k₁ k₂ h1 h12 h2
    exact quadColor_green_mono d k₁ k₂ h1 h12 hL
  · intro k hk hkc
    exact quadColor_green_floor d k hk hL (by omega)

theorem C2_witness :
    quadColor dInit 0 = (1, 1, 1, 1) ∧
    green (quadColor dInit 2) ≤ green (quadColor dInit 1) ∧
    1 / 10 ≤ green (quadColor dInit 1) := by
  obtain ⟨h1, -, h3, h4⟩ := C2_head_white_green_fade sInit sInit_reachable dInit dInit_mem
  exact ⟨h1, h3 1 2 (by decide) (by decide) (by with_unfolding_all decide),
    h4 1 (by decide) (by with_unfolding_all decide)⟩

/-- C3 counterexample: with the fixed stream `rngTrunc`, `new(40, 100)`
produces a single raindrop with `y = −100` and speed 5/2; one `update` moves
it to `y = −98`, not to `y + speed = −97.5` — the cast `speed as i32`
truncates the fractional part, so the head does NOT advance by exactly
`speed` pixels. -/
theorem C3_counterexample :
    ((RainSimulation.new 40 100 rngTrunc).bind RainSimulation.update).map
        (fun s => s.raindrops.map Raindrop.y) = some [-98] ∧
    (RainSimulation.new 40 100 rngTrunc).map
        (fun s => s.raindrops.map (fun d => (d.y : ℚ) + d.speed)) = some [-(195 : ℚ) / 2] ∧
    ((-98 : ℤ) : ℚ) ≠ -(195 : ℚ) / 2 :=
  ⟨by with_unfolding_all rfl, by with_unfolding_all rfl, by norm_num⟩

/-- C3 amended: each `update` advances the head of every raindrop that is
not recycled in that same call by exactly `i32trunc speed` pixels — the
`speed as i32` truncation of its (positive) floating-point speed, i.e. its
floor — while the speed itself is unchanged. -/
theorem C3_update_advances_truncated_speed (s s' : RainSimulation) (hInv : Inv s)
    (heq : s.update = some s') :
    ∀ (i : ℕ) (d d' : Raindrop), s.raindrops[i]? = some d →
      s'.raindrops[i]? = some d' → ¬ recycleCond s.height (moveDrop d) →
      d'.y = d.y + i32trunc d.speed ∧ i32trunc d.speed = d.speed.floor ∧
        d'.speed = d.speed := by
  intro i d d' hd hd' hnc
  obtain ⟨s0, heq0, -, -, -, hrel⟩ := update_spec s hInv
  rw [heq0] at heq
  cases heq
  obtain ⟨hs, -, hno⟩ := hrel.rel i d d' hd hd'
  have hdmem : d ∈ s.raindrops := by
    obtain ⟨hlt, hget⟩ := List.getElem?_eq_some.1 hd
    exact hget ▸ List.getElem_mem hlt
  have hsp : 0 < d.speed := (hInv.2.2 d hdmem).1
  exact ⟨(hno hnc).1, by rw [i32trunc, if_pos hsp.le], hs⟩

theorem C3_witness :
    Inv sInit ∧ sInit.update = some sInitUpd ∧
    sInit.raindrops[0]? = some dInit ∧ sInitUpd.raindrops[0]? = some dInitUpd ∧
    ¬ recycleCond sInit.height (moveDrop dInit) ∧
    dInitUpd.y = dInit.y + i32trunc dInit.speed ∧
    i32trunc dInit.speed = dInit.speed.floor ∧ dInitUpd.speed = dInit.speed := by
  have hInv : Inv sInit := by with_unfolding_all decide
  have heq : sInit.update = some sInitUpd := by with_unfolding_all rfl
  have hd : sInit.raindrops[0]? = some dInit := by with_unfolding_all rfl
  have hd' : sInitUpd.raindrops[0]? = some dInitUpd := by with_unfolding_all rfl
  have hnc : ¬ recycleCond sInit.height (moveDrop dInit) := by with_unfolding_all decide
  obtain ⟨h1, h2, h3⟩ :=
    C3_update_advances_truncated_speed sInit sInitUpd hInv heq 0 dInit dInitUpd hd hd' hnc
  exact ⟨hInv, heq, hd, hd', hnc, h1, h2, h3⟩

/-- C4 counterexample: two states identical except for the recycled
raindrop's speed (5/2 vs 9/4, same truncated movement), driven by the same
fixed random source, both recycle the raindrop in one `update` (head reset
to −100), yet the speeds after the recycle still differ — they are simply
the old values.  Had `update` reassigned `speed` during recycling, the two
runs would have drawn the same new speed from the shared stream. -/
theorem C4_counterexample :
    (sRecycleA.update).map (fun s => s.raindrops.map (fun d => (d.y, d.speed))) =
      some [(-100, 5 / 2)] ∧
    (sRecycleB.update).map (fun s => s.raindrops.map (fun d => (d.y, d.speed))) =
      some [(-100, 9 / 4)] ∧
    sRecycleB = { sRecycleA with raindrops := [{ dRecycleA with speed := 9 / 4 }] } ∧
    (5 / 2 : ℚ) ≠ 9 / 4 :=
  ⟨by with_unfolding_all rfl, by with_unfolding_all rfl, rfl, by norm_num⟩

/-- C4 amended: `update` recycles a raindrop exactly when, after the move,
its tail `y − char_count·32` exceeds twice the visible height; a recycled
raindrop has its head reset to `−height`, a fresh column `x < width`, and a
regenerated chain (`42 ≤ length < 70`, `char_count = length`), while its
`speed` is retained unchanged (not reassigned); all other raindrops keep
`y`, `x`, `length` and `char_count`, with `y` advanced by the truncated
speed.  Recycling happens within the same `update` call, atomically with
respect to the vertex generator, which only ever reads completed states. -/
theorem C4_recycle_exactly_on_tail_exit (s s' : RainSimulation) (hInv : Inv s)
    (heq : s.update = some s') :
    s'.raindrops.length = s.raindrops.length ∧
    ∀ (i : ℕ) (d d' : Raindrop), s.raindrops[i]? = some d →
      s'.raindrops[i]? = some d' →
      d'.speed = d.speed ∧
      (recycleCond s.height (moveDrop d) →
        d'.y = -(s.height : ℤ) ∧ d'.x < s.width ∧ 42 ≤ d'.length ∧
          d'.length < 70 ∧ d'.char_count = d'.length) ∧
      (¬ recycleCond s.height (moveDrop d) →
        d'.y = d.y + i32trunc d.speed ∧ d'.x = d.x ∧ d'.length = d.length ∧
          d'.char_count = d.char_count) := by
  obtain ⟨s0, heq0, -, -, -, hrel⟩ := update_spec s hInv
  rw [heq0] at heq
  cases heq
  refine ⟨hrel.len, fun i d d' hd hd' => ?_⟩
  obtain ⟨h1, h2, h3⟩ := hrel.rel i d d' hd hd'
  exact ⟨h1, h2, fun hnc =>
    ⟨(h3 hnc).1, (h3 hnc).2.1, (h3 hnc).2.2.1, (h3 hnc).2.2.2.1⟩⟩

theorem C4_witness :
    Inv sRecycleA ∧ sRecycleA.update = some sRecycleAUpd ∧
    sRecycleA.raindrops[0]? = some dRecycleA ∧
    sRecycleAUpd.raindrops[0]? = some dRecycleAUpd ∧
    recycleCond sRecycleA.height (moveDrop dRecycleA) ∧
    dRecycleAUpd.speed = dRecycleA.speed ∧
    dRecycleAUpd.y = -(sRecycleA.height : ℤ) ∧ dRecycleAUpd.x < sRecycleA.width ∧
    42 ≤ dRecycleAUpd.length ∧ dRecycleAUpd.length < 70 ∧
    dRecycleAUpd.char_count = dRecycleAUpd.length := by
  have hInv : Inv sRecycleA := by with_unfolding_all decide
  have heq : sRecycleA.update = some sRecycleAUpd := by with_unfolding_all rfl
  have hd : sRecycleA.raindrops[0]? = some dRecycleA := by with_unfolding_all rfl
  have hd' : sRecycleAUpd.raindrops[0]? = some dRecycleAUpd := by with_unfolding_all rfl
  have hc : recycleCond sRecycleA.height (moveDrop dRecycleA) := by with_unfolding_all decide
  obtain ⟨-, hrest⟩ := C4_recycle_exactly_on_tail_exit sRecycleA sRecycleAUpd hInv heq
  obtain ⟨h1, h2, -⟩ := hrest 0 dRecycleA dRecycleAUpd hd hd'
  obtain ⟨hy, hx, hl1, hl2, hcc⟩ := h2 hc
  exact ⟨hInv, heq, hd, hd', hc, h1, hy, hx, hl1, hl2, hcc⟩

/-- C5 counterexample: with the fixed stream `rngCadence`, `new(40, 100)`
spawns one visible raindrop whose chain starts all-`ｦ`; a mid-chain glyph
(row 1) is already refreshed by update 6 (to `ﾂ`), while the head glyph
(row 0) is still unchanged after update 7 and first refreshes at update 8 —
the head cadence (8 frames) is SLOWER than the mid-chain cadence
(6 frames), not faster. -/
theorem C5_counterexample :
    (runN 40 100 5 rngCadence).map (fun s => (s.raindrops.headD default).chars.take 2) =
      some ['ｦ', 'ｦ'] ∧
    (runN 40 100 6 rngCadence).map (fun s => (s.raindrops.headD default).chars.take 2) =
      some ['ｦ', 'ﾂ'] ∧
    (runN 40 100 7 rngCadence).map (fun s => (s.raindrops.headD default).chars.take 2) =
      some ['ｦ', 'ﾂ'] ∧
    (runN 40 100 8 rngCadence).map (fun s => (s.raindrops.headD default).chars.take 2) =
      some ['ﾂ', 'ﾂ'] ∧
    ('ｦ' : Char) ≠ 'ﾂ' :=
  ⟨by with_unfolding_all rfl, by with_unfolding_all rfl, by with_unfolding_all rfl,
    by with_unfolding_all rfl, by decide⟩

/-- C5 amended: the head-refresh timer fires only when at least 8 frames
have elapsed since the last head refresh, while the mid-chain timer fires
already after 6 — the head cadence is the slower of the two (the claim's
direction is reversed).  Below their thresholds both animations are
identities; at or above them they stamp the current frame into their
timer. -/
theorem C5_head_slower_than_midchain (s : RainSimulation) :
    (u32sub s.frame_count s.last_animation_frame < 8 → s.animate_glyphs = some s) ∧
    (u32sub s.frame_count s.last_midchain_frame < 6 → s.animate_midchain = some s) ∧
    (8 ≤ u32sub s.frame_count s.last_animation_frame → ∀ s',
      s.animate_glyphs = some s' → s'.last_animation_frame = s.frame_count) ∧
    (6 ≤ u32sub s.frame_count s.last_midchain_frame → ∀ s',
      s.animate_midchain = some s' → s'.last_midchain_frame = s.frame_count) := by
  refine ⟨?_, ?_, ?_, ?_⟩
  · intro hlt
    rw [RainSimulation.animate_glyphs, if_neg (by omega)]
  · intro hlt
    rw [RainSimulation.animate_midchain, if_neg (by omega)]
  · intro hge s' heq
    rw [RainSimulation.animate_glyphs, if_pos hge] at heq
    cases haux : animate_heads_aux s.charset s.raindrops s.rng with
    | none => rw [haux] at heq; simp at heq
    | some p =>
      obtain ⟨l, g⟩ := p
      rw [haux] at heq
      simp only [Option.bind_eq_bind, Option.some_bind] at heq
      cases heq
      rfl
  · intro hge s' heq
    rw [RainSimulation.animate_midchain, if_pos hge] at heq
    exact animate_midchain_body_last _ s' heq

theorem C5_witness :
    (u32sub sInit.frame_count sInit.last_animation_frame < 8 ∧
      sInit.animate_glyphs = some sInit) ∧
    (u32sub sInit.frame_count sInit.last_midchain_frame < 6 ∧
      sInit.animate_midchain = some sInit) ∧
    (8 ≤ u32sub sGate.frame_count sGate.last_animation_frame ∧
      sGate.animate_glyphs = some ((sGate.animate_glyphs).getD default) ∧
      ((sGate.animate_glyphs).getD default).last_animation_frame = sGate.frame_count) := by
  have h1 : u32sub sInit.frame_count sInit.last_animation_frame < 8 := by
    with_unfolding_all decide
  have h2 : u32sub sInit.frame_count sInit.last_midchain_frame < 6 := by
    with_unfolding_all decide
  have h3 : 8 ≤ u32sub sGate.frame_count sGate.last_animation_frame := by
    with_unfolding_all decide
  have heq : sGate.animate_glyphs = some ((sGate.animate_glyphs).getD default) := by
    with_unfolding_all rfl
  exact ⟨⟨h1, (C5_head_slower_than_midchain sInit).1 h1⟩,
    ⟨h2, (C5_head_slower_than_midchain sInit).2.1 h2⟩,
    ⟨h3, heq, (C5_head_slower_than_midchain sGate).2.2.1 h3 _ heq⟩⟩

/-- C6: in every reachable state (any sequence of `update` and `resize`
after `new`), every raindrop has a strictly positive speed and a chain no
longer than the fixed capacity 80 (both the nominal `length` and the stored
`char_count`). -/
theorem C6_speed_pos_length_bounded (s : RainSimulation) (hr : Reachable s) :
    ∀ d ∈ s.raindrops, 0 < d.speed ∧ d.length ≤ 80 ∧ d.char_count ≤ 80 := by
  intro d hd
  obtain ⟨-, -, hwf⟩ := reachable_inv hr
  obtain ⟨h1, -, -, h4, h5, -⟩ := hwf d hd
  exact ⟨h1, by omega, by omega⟩

theorem C6_witness :
    0 < dInit.speed ∧ dInit.length ≤ 80 ∧ dInit.char_count ≤ 80 :=
  C6_speed_pos_length_bounded sInit sInit_reachable dInit dInit_mem

/-- C7: the simulation is deterministic apart from the random source — two
runs of `new(width, height)` followed by `n` `update` calls on the same
fixed stream produce bit-for-bit identical states, in particular identical
raindrop lists (positions, speeds and characters). -/
theorem C7_deterministic_replay (w h n : ℕ) (g : Rng) (s₁ s₂ : RainSimulation)
    (h₁ : runN w h n g = some s₁) (h₂ : runN w h n g = some s₂) :
    s₁ = s₂ ∧ s₁.raindrops = s₂.raindrops := by
  have h := Option.some.inj (h₁.symm.trans h₂)
  exact ⟨h, by rw [h]⟩

theorem C7_witness :
    runN 40 100 2 rngZero = some ((runN 40 100 2 rngZero).getD default) ∧
    ((runN 40 100 2 rngZero).getD default = (runN 40 100 2 rngZero).getD default ∧
      ((runN 40 100 2 rngZero).getD default).raindrops =
        ((runN 40 100 2 rngZero).getD default).raindrops) := by
  have heq : runN 40 100 2 rngZero = some ((runN 40 100 2 rngZero).getD default) := by
    with_unfolding_all rfl
  exact ⟨heq, C7_deterministic_replay 40 100 2 rngZero _ _ heq heq⟩

/-- C8: surface acquisition recovery — `Lost` and `Outdated` (the error
whose message reports a changed underlying surface) trigger a surface
recreation and exactly one retried acquisition whose outcome is propagated
as-is; `OutOfMemory` is propagated without retry and makes the event loop
exit; any other error (`Timeout`) is propagated without retry and the frame
is merely logged and skipped. -/
theorem C8_surface_error_policy :
    (∀ r : Except SurfaceError Unit,
      get_current_texture_with_recovery (.error .Lost) r = (true, r) ∧
      get_current_texture_with_recovery (.error .Outdated) r = (true, r) ∧
      get_current_texture_with_recovery (.error .OutOfMemory) r =
        (false, .error .OutOfMemory) ∧
      get_current_texture_with_recovery (.error .Timeout) r = (false, .error .Timeout)) ∧
    (∀ (t : Unit) (r : Except SurfaceError Unit),
      get_current_texture_with_recovery (.ok t) r = (false, .ok t)) ∧
    handle_render_result (.error .OutOfMemory) = .exitLoop ∧
    handle_render_result (.error .Timeout) = .logAndSkip ∧
    handle_render_result (.error .Lost) = .resizeFramebuffers ∧
    handle_render_result (.ok ()) = .proceed :=
  ⟨fun _ => ⟨rfl, rfl, rfl, rfl⟩, fun _ _ => rfl, rfl, rfl, rfl, rfl⟩

/-- C9 counterexample: `new` CAN panic — on a height-2^31 window (type-
allowed, since height is a `usize`) the spawn-offset bound
`self.height as i32 * 3` wraps to −2^31, so `gen_range(0..=(−2^31))` is an
empty range and panics (in release the multiply wraps and the empty range
panics; in debug the multiply itself panics).  With `width = 40` the first
`create_raindrop` reaches that draw, so `new(40, 2^31)` fails, while the
same call at height 100 succeeds. -/
theorem C9_counterexample :
    RainSimulation.new 40 2147483648 rngZero = none ∧
    (RainSimulation.new 40 100 rngZero).isSome = true ∧
    i32wrap (usizeToI32 2147483648 * 3) = -(2 ^ 31) ∧
    genRangeIntIncl 0 (-(2 ^ 31)) 0 = none :=
  ⟨by with_unfolding_all rfl, by with_unfolding_all rfl, by decide,
    by rw [genRangeIntIncl, if_neg (by norm_num)]⟩

/-- C9 amended: the particle simulation never panics for any width (zero
included) and any height whose spawn bound fits an `i32`
(`3·height < 2^31`, which covers every real window size): `new` succeeds
for every such width, height and random source, and from every reachable
state `update` and `generate_vertex_data` always succeed while `resize`
succeeds for every width and every such height — every random-range draw
reached at runtime is then non-empty (the recycle draw of `x` from
`0..width` is only reachable when raindrops exist, hence when `width ≥ 1`)
and every chain access is in bounds (chain length clamped through `min`).
Beyond that height bound the `i32` multiply in `create_raindrop` overflows
and the spawn range can be empty, a panic (see the counterexample). -/
theorem C9_no_panic_for_i32_heights :
    (∀ (w h : ℕ) (g : Rng), 3 * h < 2 ^ 31 → (RainSimulation.new w h g).isSome) ∧
    (∀ s : RainSimulation, Reachable s →
      s.update.isSome ∧ (∀ w h : ℕ, 3 * h < 2 ^ 31 → (s.resize w h).isSome) ∧
      ∀ gm : Char → Option GlyphMetrics, (s.generate_vertex_data gm).isSome) := by
  constructor
  · intro w h g hh
    obtain ⟨s, hs, -⟩ := new_spec w h g hh
    rw [hs]
    rfl
  · intro s hr
    have hInv := reachable_inv hr
    refine ⟨?_, ?_, ?_⟩
    · obtain ⟨s', hs', -⟩ := update_spec s hInv
      rw [hs']
      rfl
    · intro w h hh
      obtain ⟨s', hs', -⟩ := resize_spec s w h hh
      rw [hs']
      rfl
    · intro gm
      have hwf : ∀ d ∈ s.raindrops, d.char_count ≤ d.chars.length := by
        intro d hd
        obtain ⟨-, -, -, h4, h5, h6⟩ := hInv.2.2 d hd
        omega
      obtain ⟨out, hout, -, -⟩ :=
        generate_vertex_data_aux_spec gm s.width s.height s.raindrops ([], []) hwf
      rw [RainSimulation.generate_vertex_data, hout]
      rfl

theorem C9_witness :
    (3 * 0 < 2 ^ 31 ∧ (RainSimulation.new 0 0 rngZero).isSome) ∧
    sInit.update.isSome ∧
    (3 * 0 < 2 ^ 31 ∧ (sInit.resize 0 0).isSome) ∧
    (sInit.generate_vertex_data (fun _ => none)).isSome :=
  ⟨⟨by norm_num, C9_no_panic_for_i32_heights.1 0 0 rngZero (by norm_num)⟩,
    (C9_no_panic_for_i32_heights.2 sInit sInit_reachable).1,
    ⟨by norm_num, (C9_no_panic_for_i32_heights.2 sInit sInit_reachable).2.1 0 0 (by norm_num)⟩,
    (C9_no_panic_for_i32_heights.2 sInit sInit_reachable).2.2 (fun _ => none)⟩

/-- C10: implicit invariant — in every reachable state every raindrop
stores exactly `length` characters (`char_count = length`), so the fade
divisor equals the number of rows iterated by the vertex generator and the
fade fraction `row / length` is strictly below 1 for every emitted row. -/
theorem C10_char_count_eq_length (s : RainSimulation) (hr : Reachable s) :
    ∀ d ∈ s.raindrops, d.char_count = d.length ∧
      ∀ k : ℕ, k < d.char_count → (k : ℚ) / (d.length : ℚ) < 1 := by
  intro d hd
  obtain ⟨-, -, hwf⟩ := reachable_inv hr
  obtain ⟨-, -, h3, -, h5, -⟩ := hwf d hd
  refine ⟨h5, fun k hk => ?_⟩
  have hL : (0 : ℚ) < (d.length : ℚ) := by
    exact_mod_cast (show 0 < d.length by omega)
  rw [div_lt_one hL]
  exact_mod_cast (show k < d.length by omega)

theorem C10_witness :
    dInit.char_count = dInit.length ∧ (1 : ℚ) / (dInit.length : ℚ) < 1 := by
  obtain ⟨h1, h2⟩ := C10_char_count_eq_length sInit sInit_reachable dInit dInit_mem
  exact ⟨h1, h2 1 (by with_unfolding_all decide)⟩

end RustyMatrix
